import Mathlib

/-!
# QNS — verification of the natural-language specification against the code

Shallow embedding of the Python wrapper layer of the QNS repository
(`crates/qns_python/python/qiskit_bridge.py`, `cli_runner.py`, `qns/ibm.py`,
`scripts/qiskit_comparison.py`) together with spec-modelled definitions for the
native Rust core (`qns.qns` extension: `QnsOptimizer`, `convert.circuit_to_qasm`),
which is not part of the Python sources.

Python `float` values that only carry calibration constants and probabilities are
modelled as `ℚ`; Python `int` as `Int`/`Nat`; Python exceptions as `Except`;
Python `dict` (insertion-ordered) as association lists.
-/

namespace QNS

/-- The exceptions the modelled Python code can raise. -/
inductive PyErr
  | valueError (msg : String)
  | keyError (msg : String)
  | indexError
  | zeroDivisionError
  deriving DecidableEq, Repr

/-! ## Modelled Python builtins: `str`, `int`, `str.split` over `List Char`

Python strings are modelled as `List Char`.  `str` of a number is decimal
rendering, `int` of a string is decimal parsing, `s.split(sep)` splits on a
single-character separator keeping empty parts, `s.split()` splits on
whitespace runs discarding empty parts, `s.strip()` removes surrounding
whitespace, `s.lower()`/`s.upper()` map ASCII case. -/

/-- Decimal digit to its character, the digit values `0..9` only. -/
def digChar (d : Nat) : Char :=
  match d with
  | 0 => '0' | 1 => '1' | 2 => '2' | 3 => '3' | 4 => '4'
  | 5 => '5' | 6 => '6' | 7 => '7' | 8 => '8' | _ => '9'

/-- Character to decimal digit value (models `int`'s per-character reading). -/
def charDig (c : Char) : Nat := c.toNat - 48

/-- Little-endian decimal digits of `n`, with explicit fuel (`fuel ≥ n` is
enough for the recursion to finish). -/
def natDigits : Nat → Nat → List Nat
  | 0, _ => []
  | fuel + 1, n => if n = 0 then [] else n % 10 :: natDigits fuel (n / 10)

/-- Models Python `str` on a non-negative integer. -/
def pyStrNat (n : Nat) : List Char :=
  if n = 0 then ['0'] else ((natDigits n n).reverse.map digChar)

/-- Models Python `str` on an integer. -/
def pyStrInt (i : Int) : List Char :=
  if i < 0 then '-' :: pyStrNat i.natAbs else pyStrNat i.toNat

/-- Models Python `int` on a string of decimal digits. -/
def pyParseNat (cs : List Char) : Nat :=
  cs.foldl (fun a c => 10 * a + charDig c) 0

/-- Models Python `int` on a decimal string with an optional leading minus. -/
def pyParseInt (cs : List Char) : Int :=
  match cs with
  | [] => (pyParseNat [] : Int)
  | c :: rest => if c = '-' then -(pyParseNat rest : Int) else (pyParseNat (c :: rest) : Int)

/-- Python whitespace test used by `str.strip()` and `str.split()`. -/
def isWs (c : Char) : Bool := c = ' ' || c = '\t' || c = '\n' || c = '\r'

/-- Models Python `str.strip()`. -/
def pyStrip (s : List Char) : List Char :=
  ((s.dropWhile isWs).reverse.dropWhile isWs).reverse

/-- `isPre p s` holds when the string `s` starts with `p`
(models Python `str.startswith`). -/
def isPre : List Char → List Char → Bool
  | [], _ => true
  | _ :: _, [] => false
  | a :: as, b :: bs => a = b && isPre as bs

/-- `hasSub nd s` holds when `nd` occurs as a contiguous substring of `s`
(models Python `nd in s`). -/
def hasSub (nd : List Char) : List Char → Bool
  | [] => isPre nd []
  | c :: cs => isPre nd (c :: cs) || hasSub nd cs

/-- Models Python `str.split(sep)` for a one-character separator:
splits at every occurrence, keeping empty parts. -/
def pySplit (sep : Char) : List Char → List (List Char)
  | [] => [[]]
  | c :: cs =>
    if c = sep then [] :: pySplit sep cs
    else
      match pySplit sep cs with
      | [] => [[c]]
      | w :: ws => (c :: w) :: ws

/-- Worker for `pySplitWs`; `acc` holds the current word reversed. -/
def splitWsAux : List Char → List Char → List (List Char)
  | [], acc => if acc.isEmpty then [] else [acc.reverse]
  | c :: cs, acc =>
    if isWs c then
      (if acc.isEmpty then splitWsAux cs [] else acc.reverse :: splitWsAux cs [])
    else splitWsAux cs (c :: acc)

/-- Models Python `str.split()` with no argument: splits on whitespace runs and
discards empty parts. -/
def pySplitWs (s : List Char) : List (List Char) := splitWsAux s []

/-- Models Python `str.lower()` (ASCII). -/
def pyLower (s : List Char) : List Char := s.map Char.toLower

/-- Models Python `str.upper()` (ASCII). -/
def pyUpper (s : List Char) : List Char := s.map Char.toUpper

/-! ## `qiskit_bridge.CircuitConverter` (qiskit_bridge.py, lines 17–124)

A QNS gate dictionary `{'name': str, 'qubits': List[int], 'params': List[float]}`
is modelled as `GateDict` (`params` defaults to `[]`, which also models an absent
`'params'` key, exactly as `gate_dict.get('params', [])` does).  The `'name' not
in gate` / `'qubits' not in gate` checks of `_validate_gates` are vacuous in this
typed embedding.  A Qiskit `QuantumCircuit` is modelled as its qubit count plus
the list of appended instructions `(gate name, qubit operands, parameters used to
construct the gate instance)`. -/

/-- A QNS gate dictionary, the input format of `CircuitConverter`. -/
structure GateDict where
  name : String
  qubits : List Int
  params : List ℚ := []
  deriving DecidableEq, Repr

/-- Models the Qiskit `QuantumCircuit` built by `qns_to_qiskit`. -/
structure QuantumCircuitM where
  num_qubits : Nat
  data : List (String × List Int × List ℚ)
  deriving DecidableEq, Repr

/-- `CircuitConverter.GATE_MAP` as a lookup: QNS name to
`(expected qubit count, has parameters)`; the Qiskit gate classes themselves are
external and carry no further information used by the bridge. -/
def lookupGateMap (name : String) : Option (Nat × Bool) :=
  if name = "H" then some (1, false)
  else if name = "X" then some (1, false)
  else if name = "Y" then some (1, false)
  else if name = "Z" then some (1, false)
  else if name = "S" then some (1, false)
  else if name = "T" then some (1, false)
  else if name = "RX" then some (1, true)
  else if name = "RY" then some (1, true)
  else if name = "RZ" then some (1, true)
  else if name = "CNOT" then some (2, false)
  else if name = "CZ" then some (2, false)
  else if name = "SWAP" then some (2, false)
  else none

/-- Models Python `max` on a list of integers (raises `ValueError` on `[]`). -/
def pyMax : List Int → Except PyErr Int
  | [] => .error (.valueError "max() arg is an empty sequence")
  | q :: qs => .ok (qs.foldl max q)

/-- `CircuitConverter._validate_gates` (qiskit_bridge.py, lines 73–94). -/
def validate_gates : List GateDict → Nat → Except PyErr Unit
  | [], _ => .ok ()
  | gate :: rest, num_qubits =>
    match lookupGateMap gate.name with
    | none => .error (.valueError "Unknown gate type")
    | some _ => do
      let m ← pyMax gate.qubits
      if (num_qubits : Int) ≤ m then
        .error (.valueError "Gate targets qubit beyond circuit size")
      else validate_gates rest num_qubits

/-- Error message of the missing-rotation-angle branch of `_append_gate`. -/
def msgMissingParams : String := "Parametric gate missing parameters"

/-- Error message of the qubit-count branch of `_append_gate`. -/
def msgQubitCount : String := "Gate expects a different number of qubits"

/-- `CircuitConverter._append_gate` (qiskit_bridge.py, lines 96–124): validates
one gate dictionary and returns the circuit with the instruction appended.
Constructor-arity errors of the external Qiskit gate classes (e.g. `RXGate`
applied to two angles) are outside the model. -/
def append_gate (qc : QuantumCircuitM) (gate_dict : GateDict) :
    Except PyErr QuantumCircuitM :=
  match lookupGateMap gate_dict.name with
  | none => .error (.keyError gate_dict.name)
  | some (expected_qubits, has_params) =>
    if gate_dict.qubits.length ≠ expected_qubits then
      .error (.valueError msgQubitCount)
    else if has_params then
      if gate_dict.params = [] then .error (.valueError msgMissingParams)
      else .ok ⟨qc.num_qubits, qc.data ++ [(gate_dict.name, gate_dict.qubits, gate_dict.params)]⟩
    else .ok ⟨qc.num_qubits, qc.data ++ [(gate_dict.name, gate_dict.qubits, [])]⟩

/-- The `for gate_dict in qns_gates: self._append_gate(qc, gate_dict)` loop. -/
def append_gates : QuantumCircuitM → List GateDict → Except PyErr QuantumCircuitM
  | qc, [] => .ok qc
  | qc, g :: gs => do
    let qc2 ← append_gate qc g
    append_gates qc2 gs

/-- `CircuitConverter.qns_to_qiskit` (qiskit_bridge.py, lines 44–71):
validate, then build the circuit gate by gate. -/
def qns_to_qiskit (qns_gates : List GateDict) (num_qubits : Nat) :
    Except PyErr QuantumCircuitM := do
  validate_gates qns_gates num_qubits
  append_gates ⟨num_qubits, []⟩ qns_gates

/-! ## `AerSimulationRunner.calculate_fidelity` and `cli_runner.run_backend`

Measurement counts (a Python `Dict[str, int]`) are an association list from
bitstrings to occurrence counts. -/

/-- `AerSimulationRunner.calculate_fidelity` (qiskit_bridge.py, lines 412–432):
`counts.get(expected_state, 0) / sum(counts.values())`; the division is
unguarded, so a zero total raises `ZeroDivisionError`. -/
def calculate_fidelity (counts : List (String × Nat)) (expected_state : String) :
    Except PyErr ℚ :=
  let total_shots := (counts.map Prod.snd).sum
  let correct_counts := (counts.lookup expected_state).getD 0
  if total_shots = 0 then .error .zeroDivisionError
  else .ok ((correct_counts : ℚ) / (total_shots : ℚ))

/-- The result dictionary built by `run_backend` for `backend_type='aer-ideal'`
(cli_runner.py, lines 87–94): exactly these six fields. -/
structure AerIdealResult where
  backend : String
  num_qubits : Nat
  num_gates : Nat
  shots : Nat
  counts : List (String × Nat)
  fidelity : ℚ
  deriving DecidableEq, Repr

/-- `'0' * num_qubits`. -/
def allZeros (num_qubits : Nat) : String := String.mk (List.replicate num_qubits '0')

/-- `cli_runner.run_backend` (cli_runner.py, lines 76–94) in the `'aer-ideal'`
branch.  The Aer simulator itself is an external collaborator; its
`AerSimulationRunner.run` is the oracle parameter `aerRun`. -/
def run_backend_aer_ideal (gates : List GateDict) (num_qubits shots : Nat)
    (aerRun : QuantumCircuitM → Nat → List (String × Nat)) :
    Except PyErr AerIdealResult := do
  let qc ← qns_to_qiskit gates num_qubits
  let counts := aerRun qc shots
  let fid ← calculate_fidelity counts (allZeros num_qubits)
  .ok { backend := "aer-ideal", num_qubits := num_qubits, num_gates := gates.length,
        shots := shots, counts := counts, fidelity := fid }

/-! ## `CalibrationFetcher._parse_crosstalk` (qiskit_bridge.py, lines 210–242) -/

/-- The `for edge in config.coupling_map` loop: normalise each edge to the sorted
pair and insert the baseline value `0.005` on first sight (Python dicts append
new keys at the end). -/
def crosstalk_loop : List (Nat × Nat) → List ((Nat × Nat) × ℚ) → List ((Nat × Nat) × ℚ)
  | [], crosstalk => crosstalk
  | edge :: rest, crosstalk =>
    let key := (min edge.1 edge.2, max edge.1 edge.2)
    if (crosstalk.map Prod.fst).contains key then crosstalk_loop rest crosstalk
    else crosstalk_loop rest (crosstalk ++ [(key, 5 / 1000)])

/-- `CalibrationFetcher._parse_crosstalk`: `coupling_map = none` models a
configuration without the attribute or with a `None`/empty value (the Python
guard `if hasattr(config, 'coupling_map') and config.coupling_map`); the float
literal `0.005` is modelled as the exact rational `5/1000`. -/
def parse_crosstalk (coupling_map : Option (List (Nat × Nat))) :
    List ((Nat × Nat) × ℚ) :=
  match coupling_map with
  | none => []
  | some cm => if cm = [] then [] else crosstalk_loop cm []

/-! ## `NoiseModelBuilder.build_noise_model` (qiskit_bridge.py, lines 295–368)

A Qiskit `NoiseModel` is modelled as the list of `add_quantum_error` calls made
while building it; the Qiskit error objects `thermal_relaxation_error(t1, t2,
time)`, their `.tensor`, and `depolarizing_error(rate, n)` are modelled
symbolically by their constructor arguments. -/

/-- A Qiskit quantum-error object, by its constructor arguments. -/
inductive QError
  | thermal_relaxation (t1 t2 gate_time : ℚ)
  | thermal_tensor (t1a t2a t1b t2b gate_time : ℚ)
  | depolarizing (rate : ℚ) (num_qubits : Nat)
  deriving DecidableEq, Repr

/-- One `noise_model.add_quantum_error(error, instructions, qubits)` call. -/
structure ErrorAdd where
  error : QError
  instructions : List String
  qubits : List Nat
  deriving DecidableEq, Repr

/-- The calibration dictionary consumed by `build_noise_model`. -/
structure CalibDict where
  t1 : List ℚ
  t2 : List ℚ
  gate_errors_1q : List ℚ
  gate_errors_2q : List ((Nat × Nat) × ℚ)
  readout_errors : List ℚ
  deriving DecidableEq, Repr

/-- `35e-9`: single-qubit gate time. -/
def gate_time_1q : ℚ := 35 / 10 ^ 9

/-- `660e-9`: two-qubit gate time. -/
def gate_time_2q : ℚ := 660 / 10 ^ 9

/-- Models Python list indexing `l[i]` (raises `IndexError` out of range). -/
def idx (l : List ℚ) (i : Nat) : Except PyErr ℚ :=
  match l.get? i with
  | some v => .ok v
  | none => .error .indexError

/-- `Except`-valued map, modelling a Python `for` loop that builds a list and
can raise. -/
def exceptMap (f : α → Except PyErr β) : List α → Except PyErr (List β)
  | [] => .ok []
  | a :: as => do
    let b ← f a
    let bs ← exceptMap f as
    .ok (b :: bs)

/-- `NoiseModelBuilder.build_noise_model`: clamp T2 to `2*T1`, then add thermal
relaxation and depolarizing errors for single-qubit gates and for every
calibrated two-qubit pair, in source order. -/
def build_noise_model (calibration : CalibDict) : Except PyErr (List ErrorAdd) := do
  let t1_list := calibration.t1
  let t2_list := calibration.t2
  let num_qubits := t1_list.length
  let t2_list_validated ← exceptMap (fun i => do
      let t1 ← idx t1_list i
      let t2 ← idx t2_list i
      .ok (min t2 (2 * t1))) (List.range num_qubits)
  let thermal_1q ← exceptMap (fun qubit => do
      let a ← idx t1_list qubit
      let b ← idx t2_list_validated qubit
      .ok (⟨.thermal_relaxation a b gate_time_1q, ["sx", "x"], [qubit]⟩ : ErrorAdd))
    (List.range num_qubits)
  let depol_1q ← exceptMap (fun qubit => do
      let e ← idx calibration.gate_errors_1q qubit
      .ok (⟨.depolarizing e 1, ["sx", "x"], [qubit]⟩ : ErrorAdd))
    (List.range num_qubits)
  let errors_2q ← exceptMap (fun p => do
      let t1q0 ← idx t1_list p.1.1
      let t2q0 ← idx t2_list_validated p.1.1
      let t1q1 ← idx t1_list p.1.2
      let t2q1 ← idx t2_list_validated p.1.2
      .ok ([⟨.thermal_tensor t1q0 t2q0 t1q1 t2q1 gate_time_2q, ["cx"], [p.1.1, p.1.2]⟩,
            ⟨.depolarizing p.2 2, ["cx"], [p.1.1, p.1.2]⟩] : List ErrorAdd))
    calibration.gate_errors_2q
  .ok (thermal_1q ++ depol_1q ++ errors_2q.flatten)

/-- The physical-constraint shape of one built error entry: every thermal
relaxation component was constructed with the clamped T2 value
`min(t2_list[i], 2 * t1_list[i])` of its qubit `i` (so in particular its
effective T2 is at most twice its T1). -/
def ClampedEntry (t1_list t2_list : List ℚ) (e : ErrorAdd) : Prop :=
  match e.error with
  | .thermal_relaxation a b _ =>
      b ≤ 2 * a ∧ ∃ i t2o, t1_list.get? i = some a ∧ t2_list.get? i = some t2o ∧
        b = min t2o (2 * a)
  | .thermal_tensor a b c d _ =>
      (b ≤ 2 * a ∧ ∃ i t2o, t1_list.get? i = some a ∧ t2_list.get? i = some t2o ∧
        b = min t2o (2 * a)) ∧
      (d ≤ 2 * c ∧ ∃ j t2o, t1_list.get? j = some c ∧ t2_list.get? j = some t2o ∧
        d = min t2o (2 * c))
  | .depolarizing _ _ => True

/-! ## `qns.ibm.CalibrationInfo.to_dict` / `from_dict` (ibm.py, lines 114–141)

The dataclass fields that are Python dicts keyed by qubit ids (ints) or by qubit
pairs are association lists; `to_dict` renders keys with `str` / `f"{a},{b}"`,
`from_dict` parses them back with `int` / `split(",")`. -/

/-- `qns.ibm.CalibrationInfo` restricted to the typed content named by the
claim: int keys, pair-of-int 2q keys, pair-of-int coupling edges. -/
structure CalibrationInfo where
  backend_name : String
  num_qubits : Int
  t1_times : List (Int × ℚ)
  t2_times : List (Int × ℚ)
  gate_errors_1q : List (Int × ℚ)
  gate_errors_2q : List ((Int × Int) × ℚ)
  readout_errors : List (Int × ℚ)
  coupling_map : List (Int × Int)
  timestamp : ℚ
  deriving DecidableEq, Repr

/-- The dictionary produced by `CalibrationInfo.to_dict`: per-qubit maps keyed
by strings, 2q map keyed by `"a,b"` strings.  `timestamp` is optional because
`from_dict` reads it with `d.get("timestamp", time.time())`. -/
structure CalibrationInfoDict where
  backend_name : String
  num_qubits : Int
  t1_times : List (List Char × ℚ)
  t2_times : List (List Char × ℚ)
  gate_errors_1q : List (List Char × ℚ)
  gate_errors_2q : List (List Char × ℚ)
  readout_errors : List (List Char × ℚ)
  coupling_map : List (Int × Int)
  timestamp : Option ℚ
  deriving DecidableEq, Repr

/-- `CalibrationInfo.to_dict` (ibm.py, lines 114–126). -/
def CalibrationInfo.to_dict (c : CalibrationInfo) : CalibrationInfoDict where
  backend_name := c.backend_name
  num_qubits := c.num_qubits
  t1_times := c.t1_times.map (fun kv => (pyStrInt kv.1, kv.2))
  t2_times := c.t2_times.map (fun kv => (pyStrInt kv.1, kv.2))
  gate_errors_1q := c.gate_errors_1q.map (fun kv => (pyStrInt kv.1, kv.2))
  gate_errors_2q := c.gate_errors_2q.map
    (fun kv => (pyStrInt kv.1.1 ++ ',' :: pyStrInt kv.1.2, kv.2))
  readout_errors := c.readout_errors.map (fun kv => (pyStrInt kv.1, kv.2))
  coupling_map := c.coupling_map
  timestamp := some c.timestamp

/-- `tuple(map(int, k.split(",")))` for a two-part key.  Keys produced by
`to_dict` always have exactly two parts; on any other arity the Python
expression builds a tuple of a different length, which this pair-typed model
cannot represent (that branch is unreachable below). -/
def parseIntPair (s : List Char) : Int × Int :=
  match pySplit ',' s with
  | [a, b] => (pyParseInt a, pyParseInt b)
  | _ => (0, 0)

/-- `CalibrationInfo.from_dict` (ibm.py, lines 128–141); `now` models the
`time.time()` fallback used when the dictionary lacks a timestamp. -/
def CalibrationInfo.from_dict (d : CalibrationInfoDict) (now : ℚ) : CalibrationInfo where
  backend_name := d.backend_name
  num_qubits := d.num_qubits
  t1_times := d.t1_times.map (fun kv => (pyParseInt kv.1, kv.2))
  t2_times := d.t2_times.map (fun kv => (pyParseInt kv.1, kv.2))
  gate_errors_1q := d.gate_errors_1q.map (fun kv => (pyParseInt kv.1, kv.2))
  gate_errors_2q := d.gate_errors_2q.map (fun kv => (parseIntPair kv.1, kv.2))
  readout_errors := d.readout_errors.map (fun kv => (pyParseInt kv.1, kv.2))
  coupling_map := d.coupling_map
  timestamp := d.timestamp.getD now

/-! ## `scripts/qiskit_comparison.run_qns_optimization` (lines 164–207)

The analytic QNS model of that script works on circuit specifications whose
gates are tuples `("h", q)` or `("cx"/"cz", a, b)`; the two-qubit names `"cx"`
and `"cz"` only ever occur with two operands in the file, which the inductive
shape encodes. -/

/-- A gate tuple of a circuit specification in `qiskit_comparison.py`. -/
inductive SpecGate
  | one (name : String) (q : Int)
  | two (name : String) (a b : Int)
  deriving DecidableEq, Repr

/-- The `needs_routing` test: a `"cx"`/`"cz"` gate at linear distance `> 1`. -/
def SpecGate.needsRouting : SpecGate → Bool
  | .one _ _ => false
  | .two n a b => (n = "cx" || n = "cz") && decide (1 < (a - b).natAbs)

/-- The per-gate SWAP estimate of the claim: `d - 1` for a two-qubit gate at
distance `d > 1`, otherwise `0`. -/
def SpecGate.swapContrib : SpecGate → Nat
  | .one _ _ => 0
  | .two n a b =>
    if (n = "cx" || n = "cz") && decide (1 < (a - b).natAbs)
    then (a - b).natAbs - 1 else 0

/-- The `swap_count` computed by `run_qns_optimization` (qiskit_comparison.py,
lines 172–191): zero unless some two-qubit gate needs routing, in which case the
loop accumulates `distance - 1` over the two-qubit gates at distance `> 1`. -/
def run_qns_swap_count (gates : List SpecGate) : Nat :=
  let needs_routing := gates.any SpecGate.needsRouting
  if needs_routing then
    gates.foldl (fun swap_count g =>
      match g with
      | .one _ _ => swap_count
      | .two n a b =>
        if n = "cx" || n = "cz" then
          let distance := (a - b).natAbs
          if 1 < distance then swap_count + (distance - 1) else swap_count
        else swap_count) 0
  else 0

/-! ## The QNS circuit model, its text serialization, and `parse_qasm_file`

The circuit/gate data model follows spec §3: a tag from
`{H,X,Y,Z,S,T,RX,RY,RZ,CNOT,CZ,SWAP,MEASURE}`, one or two operand qubits, and an
angle exactly for the rotation tags. -/

/-- A QNS gate (spec §3): tag plus operands, angle on rotations only. -/
inductive QnsGate
  | h (q : Nat) | x (q : Nat) | y (q : Nat) | z (q : Nat)
  | s (q : Nat) | t (q : Nat)
  | rx (q : Nat) (angle : ℚ) | ry (q : Nat) (angle : ℚ) | rz (q : Nat) (angle : ℚ)
  | cnot (a b : Nat) | cz (a b : Nat) | swapg (a b : Nat)
  | measure (q : Nat)
  deriving DecidableEq, Repr

/-- A QNS circuit (spec §3): fixed qubit count and ordered gate sequence. -/
structure QnsCircuit where
  num_qubits : Nat
  gates : List QnsGate
  deriving DecidableEq, Repr

/-- The operand qubits of a gate. -/
def QnsGate.operands : QnsGate → List Nat
  | .h q | .x q | .y q | .z q | .s q | .t q => [q]
  | .rx q _ | .ry q _ | .rz q _ => [q]
  | .cnot a b | .cz a b | .swapg a b => [a, b]
  | .measure q => [q]

/-- Rendering of a rotation angle in the serialized text.  The native
serializer prints the float angle; the exact numeral format is immaterial here
because no statement below touches a rotation line, so an exact `num/den`
rendering of the rational stands in for it. -/
def angleStr (a : ℚ) : List Char := pyStrInt a.num ++ '/' :: pyStrNat a.den

/-- Modelled from the spec: one line of the OpenQASM-like text form emitted by
the native `convert.circuit_to_qasm` serializer (spec §4.1/§6), lowercase
mnemonics with bracketed qubit operands, e.g. `h q[0];`, `cx q[0], q[1];`,
`rx(θ) q[0];`, `measure q[0] -> c[0];`.  `CNOT` is serialized as the OpenQASM
mnemonic `cx`. -/
def gateLine : QnsGate → List Char
  | .h q => 'h' :: ' ' :: 'q' :: '[' :: (pyStrNat q ++ [']', ';'])
  | .x q => 'x' :: ' ' :: 'q' :: '[' :: (pyStrNat q ++ [']', ';'])
  | .y q => 'y' :: ' ' :: 'q' :: '[' :: (pyStrNat q ++ [']', ';'])
  | .z q => 'z' :: ' ' :: 'q' :: '[' :: (pyStrNat q ++ [']', ';'])
  | .s q => 's' :: ' ' :: 'q' :: '[' :: (pyStrNat q ++ [']', ';'])
  | .t q => 't' :: ' ' :: 'q' :: '[' :: (pyStrNat q ++ [']', ';'])
  | .rx q a => 'r' :: 'x' :: '(' :: (angleStr a ++ ')' :: ' ' :: 'q' :: '[' :: (pyStrNat q ++ [']', ';']))
  | .ry q a => 'r' :: 'y' :: '(' :: (angleStr a ++ ')' :: ' ' :: 'q' :: '[' :: (pyStrNat q ++ [']', ';']))
  | .rz q a => 'r' :: 'z' :: '(' :: (angleStr a ++ ')' :: ' ' :: 'q' :: '[' :: (pyStrNat q ++ [']', ';']))
  | .cnot a b =>
    'c' :: 'x' :: ' ' :: 'q' :: '[' :: (pyStrNat a ++ [']', ','] ++
      (' ' :: 'q' :: '[' :: (pyStrNat b ++ [']', ';'])))
  | .cz a b =>
    'c' :: 'z' :: ' ' :: 'q' :: '[' :: (pyStrNat a ++ [']', ','] ++
      (' ' :: 'q' :: '[' :: (pyStrNat b ++ [']', ';'])))
  | .swapg a b =>
    's' :: 'w' :: 'a' :: 'p' :: ' ' :: 'q' :: '[' :: (pyStrNat a ++ [']', ','] ++
      (' ' :: 'q' :: '[' :: (pyStrNat b ++ [']', ';'])))
  | .measure q =>
    'm' :: 'e' :: 'a' :: 's' :: 'u' :: 'r' :: 'e' :: ' ' :: 'q' :: '[' ::
      (pyStrNat q ++ [']', ' ', '-', '>', ' ', 'c', '['] ++ (pyStrNat q ++ [']', ';']))

/-- Modelled from the spec: the OpenQASM-like text form of a circuit produced
by the native `convert.circuit_to_qasm` — the qubit-register declaration
`qreg q[n];` followed by one line per gate, as a list of lines (the CLI reads
the file and iterates `content.splitlines()`). -/
def circuit_to_text (c : QnsCircuit) : List (List Char) :=
  ('q' :: 'r' :: 'e' :: 'g' :: ' ' :: 'q' :: '[' :: (pyStrNat c.num_qubits ++ [']', ';']))
    :: c.gates.map gateLine

/-- A gate dictionary produced by `cli_runner.parse_qasm_file`. -/
structure PGate where
  name : List Char
  qubits : List Int
  params : List ℚ
  deriving DecidableEq, Repr

/-- The ideal lossless image of a gate under the claimed round trip: uppercase
tag name, operand qubits, the rotation angle as single parameter. -/
def pgateOf : QnsGate → PGate
  | .h q => ⟨['H'], [(q : Int)], []⟩
  | .x q => ⟨['X'], [(q : Int)], []⟩
  | .y q => ⟨['Y'], [(q : Int)], []⟩
  | .z q => ⟨['Z'], [(q : Int)], []⟩
  | .s q => ⟨['S'], [(q : Int)], []⟩
  | .t q => ⟨['T'], [(q : Int)], []⟩
  | .rx q a => ⟨['R', 'X'], [(q : Int)], [a]⟩
  | .ry q a => ⟨['R', 'Y'], [(q : Int)], [a]⟩
  | .rz q a => ⟨['R', 'Z'], [(q : Int)], [a]⟩
  | .cnot a b => ⟨['C', 'N', 'O', 'T'], [(a : Int), (b : Int)], []⟩
  | .cz a b => ⟨['C', 'Z'], [(a : Int), (b : Int)], []⟩
  | .swapg a b => ⟨['S', 'W', 'A', 'P'], [(a : Int), (b : Int)], []⟩
  | .measure q => ⟨['M', 'E', 'A', 'S', 'U', 'R', 'E'], [(q : Int)], []⟩

/-- The gate tags whose serialized lines `parse_qasm_file` recovers exactly. -/
def QnsGate.recovered : QnsGate → Bool
  | .h _ | .x _ | .y _ | .z _ | .cnot _ _ | .cz _ _ => true
  | _ => false

/-- The gate tags whose serialized lines `parse_qasm_file` skips entirely. -/
def QnsGate.dropped : QnsGate → Bool
  | .s _ | .t _ | .swapg _ _ | .measure _ => true
  | _ => false

/-- The token list of the gate-detection test in `parse_qasm_file`
(cli_runner.py, line 48). -/
def gateTokens : List (List Char) :=
  [['h'], ['x'], ['y'], ['z'], ['r', 'x'], ['r', 'y'], ['r', 'z'],
   ['c', 'x'], ['c', 'n', 'o', 't']]

/-- The rotation tokens of the parameter test (cli_runner.py, line 63). -/
def rotTokens : List (List Char) := [['R', 'X'], ['R', 'Y'], ['R', 'Z']]

/-- Models Python `float()` on the plain decimal strings the parser can feed it
(optional sign, integer digits, optional fraction digits); other forms raise
`ValueError`.  No statement below exercises this function. -/
def pyParseFloat (s : List Char) : Except PyErr ℚ :=
  let signed : ℚ × List Char :=
    match s with
    | c :: rest => if c = '-' then (-1, rest) else (1, s)
    | [] => (1, s)
  match pySplit '.' signed.2 with
  | [intPart] =>
    if intPart ≠ [] ∧ intPart.all Char.isDigit then
      .ok (signed.1 * pyParseNat intPart)
    else .error (.valueError "could not convert string to float")
  | [intPart, fracPart] =>
    if intPart ++ fracPart ≠ [] ∧ (intPart ++ fracPart).all Char.isDigit then
      .ok (signed.1 * ((pyParseNat intPart : ℚ) +
        (pyParseNat fracPart : ℚ) / 10 ^ fracPart.length))
    else .error (.valueError "could not convert string to float")
  | _ => .error (.valueError "could not convert string to float")

/-- One iteration of the `for line in content.splitlines()` loop of
`cli_runner.parse_qasm_file` (cli_runner.py, lines 33–71), threading the
`(num_qubits, gates)` state.  `pyParseInt` models `int()` on the decimal
strings the code applies it to (Python raises `ValueError` elsewhere, a path no
statement below exercises). -/
def parse_qasm_line (st : Int × List PGate) (rawLine : List Char) :
    Except PyErr (Int × List PGate) :=
  let line := pyStrip rawLine
  if line = [] || isPre ['/', '/'] line then .ok st
  else if isPre ['q', 'r', 'e', 'g'] line then
    match pySplit '[' line with
    | _ :: p1 :: _ => .ok (pyParseInt (pySplit ']' p1).headI, st.2)
    | _ => .ok st
  else if gateTokens.any (fun g => hasSub g (pyLower line)) then do
    let gate_name0 := pyUpper (pySplitWs line).headI
    let gate_name := if gate_name0 = ['C', 'X'] then ['C', 'N', 'O', 'T'] else gate_name0
    let qubit_str := (pySplit '[' line).tail
    let qubits := qubit_str.map (fun s3 => pyParseInt (pySplit ']' s3).headI)
    let params ← if rotTokens.any (fun g => hasSub g gate_name) then
        match pySplit '(' line with
        | _ :: p1 :: _ => do
          let v ← pyParseFloat (pySplit ')' p1).headI
          .ok [v]
        | _ => .error .indexError
      else .ok ([] : List ℚ)
    .ok (st.1, st.2 ++ [⟨gate_name, qubits, params⟩])
  else .ok st

/-- `cli_runner.parse_qasm_file` (cli_runner.py, lines 24–73) on the already
split lines of the file: fold the per-line parser over the lines, starting
from `num_qubits = 0` and no gates. -/
def parse_qasm_file (lines : List (List Char)) : Except PyErr (Int × List PGate) :=
  lines.foldlM parse_qasm_line (0, [])

/-! ## The optimizer invariant (spec §4.4), modelled from the spec

The search core (`QnsOptimizer.optimize`) lives in the native Rust extension,
which is not among the Python sources; the definitions below model §4.4
directly: the initial candidate set is the unmodified input circuit, each
iteration expands the frontier with successors, keeps the `beam_width` best,
and the best candidate ever seen is returned; the fidelity scoring (§4.3) and
the successor generation (§4.4 (a)–(c)) are abstracted as configuration
fields. -/

/-- Modelled from the spec: the optimizer configuration of §4.4.  `score` is
the §4.3 fidelity estimator, `successors` generates the legal moves (adjacent
commuting swap, placement, SWAP insertion). -/
structure QnsOptimizer where
  hardware_num_qubits : Nat
  beam_width : Nat
  max_iterations : Nat
  score : QnsCircuit → ℚ
  successors : QnsCircuit → List QnsCircuit

/-- Modelled from the spec: `OptimizationResult` of §3. -/
structure OptimizationResult where
  original_score : ℚ
  optimized_score : ℚ
  score_improvement : ℚ
  optimized_circuit : QnsCircuit

/-- Keep the better-scored of two candidates. -/
def betterOf (score : QnsCircuit → ℚ) (b x : QnsCircuit) : QnsCircuit :=
  if score b < score x then x else b

/-- Retain the `beam_width` best-scored candidates of a frontier. -/
def topCandidates (score : QnsCircuit → ℚ) (beam_width : Nat)
    (l : List QnsCircuit) : List QnsCircuit :=
  (l.mergeSort (fun a b => decide (score b ≤ score a))).take beam_width

/-- Modelled from the spec: the iterated beam search of §4.4, tracking the best
candidate ever seen. -/
def searchBest (score : QnsCircuit → ℚ) (succ : QnsCircuit → List QnsCircuit)
    (beam_width : Nat) : Nat → List QnsCircuit → QnsCircuit → QnsCircuit
  | 0, _, best => best
  | iters + 1, frontier, best =>
    let expanded := frontier.flatMap succ
    searchBest score succ beam_width iters
      (topCandidates score beam_width expanded)
      (expanded.foldl (betterOf score) best)

/-- Modelled from the spec: `QnsOptimizer.optimize` (§4.4) — reject a circuit
larger than the hardware (`CapacityError`) or with an out-of-range operand
(`InvalidCircuitError`), then run the search with the identity circuit as the
initial candidate set and return the best candidate ever seen.  Mid-search
routing failures only drop individual candidates (inside `successors`); the
call-level `RoutingError` case concerns inputs on which no result is returned
and is outside the accepted-input scope of the claim. -/
def optimize (opt : QnsOptimizer) (circuit : QnsCircuit) :
    Except PyErr OptimizationResult :=
  if opt.hardware_num_qubits < circuit.num_qubits then
    .error (.valueError "CapacityError: circuit larger than hardware")
  else if circuit.gates.any (fun g => g.operands.any (fun q => circuit.num_qubits ≤ q)) then
    .error (.valueError "InvalidCircuitError: gate operand out of range")
  else
    let best := searchBest opt.score opt.successors opt.beam_width
      opt.max_iterations [circuit] circuit
    .ok { original_score := opt.score circuit
          optimized_score := opt.score best
          score_improvement := opt.score best - opt.score circuit
          optimized_circuit := best }

/-- Character classification of a serialized line: every character is either
one of the line's fixed characters or a decimal digit (from a rendered qubit
index). -/
def LineChars (fixed : List Char) (line : List Char) : Prop :=
  ∀ c ∈ line, c ∈ fixed ∨ (48 ≤ c.toNat ∧ c.toNat ≤ 57)

/-! ## Helper lemmas for the modelled builtins -/


theorem charDig_digChar {d : Nat} (h : d < 10) : charDig (digChar d) = d := by
  interval_cases d <;> rfl

theorem natDigits_lt_ten {fuel n d : Nat} (h : d ∈ natDigits fuel n) : d < 10 := by
  induction fuel generalizing n with
  | zero => simp [natDigits] at h
  | succ fuel ih =>
    by_cases h0 : n = 0
    · simp [natDigits, h0] at h
    · simp [natDigits, h0] at h
      rcases h with h | h
      · omega
      · exact ih h

theorem ofDigits_natDigits {fuel n : Nat} (h : n ≤ fuel) :
    Nat.ofDigits 10 (natDigits fuel n) = n := by
  induction fuel generalizing n with
  | zero =>
    interval_cases n
    simp [natDigits]
  | succ fuel ih =>
    by_cases h0 : n = 0
    · simp [natDigits, h0]
    · have hdiv : n / 10 ≤ fuel := by
        have := Nat.div_lt_self (Nat.pos_of_ne_zero h0) (by norm_num : 1 < 10)
        omega
      simp [natDigits, h0, Nat.ofDigits_cons, ih hdiv]
      omega

theorem pyParseNat_digits (ds : List Nat) (h : ∀ d ∈ ds, d < 10) :
    pyParseNat (ds.reverse.map digChar) = Nat.ofDigits 10 ds := by
  induction ds with
  | nil => rfl
  | cons d ds ih =>
    have hd : d < 10 := h d (List.mem_cons_self _ _)
    have hds : ∀ x ∈ ds, x < 10 := fun x hx => h x (List.mem_cons_of_mem _ hx)
    simp only [List.reverse_cons, List.map_append, List.map_cons, List.map_nil]
    unfold pyParseNat
    rw [List.foldl_append]
    unfold pyParseNat at ih
    rw [ih hds]
    simp [Nat.ofDigits_cons, charDig_digChar hd]
    ring

/-- Round trip of the modelled Python `str`/`int` builtins on `Nat`. -/
theorem pyParseNat_pyStrNat (n : Nat) : pyParseNat (pyStrNat n) = n := by
  by_cases h0 : n = 0
  · subst h0; rfl
  · unfold pyStrNat
    rw [if_neg h0, pyParseNat_digits _ (fun d hd => natDigits_lt_ten hd),
      ofDigits_natDigits (Nat.le_refl n)]

theorem pyStrNat_ne_nil (n : Nat) : pyStrNat n ≠ [] := by
  unfold pyStrNat
  by_cases h0 : n = 0
  · simp [h0]
  · rw [if_neg h0]
    cases n with
    | zero => exact absurd rfl h0
    | succ m => simp [natDigits]

theorem digChar_isDigit {d : Nat} (h : d < 10) : (digChar d).isDigit = true := by
  interval_cases d <;> rfl

theorem pyStrNat_isDigit {n : Nat} {c : Char} (h : c ∈ pyStrNat n) :
    c.isDigit = true := by
  unfold pyStrNat at h
  by_cases h0 : n = 0
  · simp [h0] at h
    subst h; rfl
  · rw [if_neg h0] at h
    simp only [List.mem_map, List.mem_reverse] at h
    obtain ⟨d, hd, rfl⟩ := h
    exact digChar_isDigit (natDigits_lt_ten hd)

/-- Round trip of the modelled Python `str`/`int` builtins on `Int`. -/
theorem pyParseInt_pyStrInt (i : Int) : pyParseInt (pyStrInt i) = i := by
  unfold pyStrInt
  by_cases hneg : i < 0
  · rw [if_pos hneg]
    show pyParseInt ('-' :: pyStrNat i.natAbs) = i
    simp [pyParseInt, pyParseNat_pyStrNat]
    rw [abs_of_neg hneg]
    ring
  · rw [if_neg hneg]
    cases heq : pyStrNat i.toNat with
    | nil => exact absurd heq (pyStrNat_ne_nil _)
    | cons c cs =>
      have hdig : c.isDigit = true := pyStrNat_isDigit (heq ▸ List.mem_cons_self c cs)
      have hcne : ¬ (c = '-') := by
        intro hc
        rw [hc] at hdig
        exact absurd hdig (by decide)
      simp only [pyParseInt]
      rw [if_neg hcne, ← heq, pyParseNat_pyStrNat]
      omega


theorem pySplit_ne_nil (sep : Char) (s : List Char) : pySplit sep s ≠ [] := by
  induction s with
  | nil => simp [pySplit]
  | cons c cs ih =>
    by_cases hc : c = sep
    · simp [pySplit, hc]
    · simp only [pySplit, if_neg hc]
      cases h : pySplit sep cs with
      | nil => exact absurd h ih
      | cons w ws => simp

theorem pySplit_of_not_mem {sep : Char} {s : List Char} (h : sep ∉ s) :
    pySplit sep s = [s] := by
  induction s with
  | nil => rfl
  | cons c cs ih =>
    have hc : ¬ (c = sep) := fun hcc => h (hcc ▸ List.mem_cons_self c cs)
    have hcs : sep ∉ cs := fun hm => h (List.mem_cons_of_mem _ hm)
    simp only [pySplit, if_neg hc, ih hcs]

theorem pySplit_append {sep : Char} {s1 : List Char} (s2 : List Char)
    (h : sep ∉ s1) : pySplit sep (s1 ++ sep :: s2) = s1 :: pySplit sep s2 := by
  induction s1 with
  | nil => simp [pySplit]
  | cons c cs ih =>
    have hc : ¬ (c = sep) := fun hcc => h (hcc ▸ List.mem_cons_self c cs)
    have hcs : sep ∉ cs := fun hm => h (List.mem_cons_of_mem _ hm)
    simp only [List.cons_append, pySplit, if_neg hc]
    rw [show cs.append (sep :: s2) = cs ++ sep :: s2 from rfl, ih hcs]

theorem pyStrip_eq_self {c d : Char} (mid : List Char)
    (hc : ¬ isWs c = true) (hd : ¬ isWs d = true) :
    pyStrip (c :: (mid ++ [d])) = c :: (mid ++ [d]) := by
  unfold pyStrip
  rw [List.dropWhile_cons_of_neg hc]
  have h1 : (c :: (mid ++ [d])).reverse = d :: (mid.reverse ++ [c]) := by
    simp
  rw [h1, List.dropWhile_cons_of_neg hd, ← h1, List.reverse_reverse]

theorem toLower_eq_self {c : Char} (h : c.toNat < 65 ∨ 90 < c.toNat) :
    c.toLower = c := by
  unfold Char.toLower
  rw [if_neg]
  simp only [Bool.and_eq_true, decide_eq_true_eq, not_and]
  omega

theorem pyLower_eq_self {s : List Char}
    (h : ∀ c ∈ s, c.toNat < 65 ∨ 90 < c.toNat) : pyLower s = s := by
  unfold pyLower
  induction s with
  | nil => rfl
  | cons c cs ih =>
    rw [List.map_cons, toLower_eq_self (h c (List.mem_cons_self _ _)),
      ih (fun x hx => h x (List.mem_cons_of_mem _ hx))]

theorem splitWsAux_word (rest : List Char) :
    ∀ (w acc : List Char), (∀ c ∈ w, ¬ isWs c = true) → (acc ++ w) ≠ [] →
    splitWsAux (w ++ ' ' :: rest) acc.reverse =
      (acc ++ w) :: splitWsAux rest [] := by
  intro w
  induction w with
  | nil =>
    intro acc hw hne
    have hae : ¬ acc.reverse.isEmpty = true := by
      simp only [List.isEmpty_iff, List.reverse_eq_nil_iff]
      simpa using hne
    simp only [List.nil_append, splitWsAux, isWs, Char.reduceEq]
    simp only [decide_True, Bool.true_or, if_pos rfl, if_neg hae,
      List.reverse_reverse]
    simp
  | cons c cs ih =>
    intro acc hw hne
    have hc : ¬ isWs c = true := hw c (List.mem_cons_self _ _)
    have hcs : ∀ x ∈ cs, ¬ isWs x = true := fun x hx => hw x (List.mem_cons_of_mem _ hx)
    have h2 : acc ++ c :: cs = (acc ++ [c]) ++ cs := by simp
    rw [List.cons_append]
    show splitWsAux (c :: (cs ++ ' ' :: rest)) acc.reverse = _
    rw [show splitWsAux (c :: (cs ++ ' ' :: rest)) acc.reverse
        = splitWsAux (cs ++ ' ' :: rest) (c :: acc.reverse) by
      simp [splitWsAux, hc]]
    have h3 : c :: acc.reverse = (acc ++ [c]).reverse := by simp
    rw [h3, ih (acc ++ [c]) hcs (by simp), h2]

/-- The first word returned by Python `line.split()` on a line that starts
with a non-empty whitespace-free word followed by a blank. -/
theorem pySplitWs_head (w rest : List Char) (hw : ∀ c ∈ w, ¬ isWs c = true)
    (hne : w ≠ []) :
    pySplitWs (w ++ ' ' :: rest) = w :: splitWsAux rest [] := by
  unfold pySplitWs
  have := splitWsAux_word rest w [] hw (by simpa using hne)
  simpa using this

/-! ## Claim C5: the analytic SWAP-count model of `qiskit_comparison.py` -/

/-- C5: `run_qns_optimization` computes, for every circuit specification on the
linear chain, `swap_count` as the sum over two-qubit (`cx`/`cz`) gates at
linear distance `d > 1` of `d - 1`; in particular it yields `2` for the
circuit `[CNOT(0, 3)]` on the 4-qubit linear topology, the minimum SWAP count
for the identity placement named by the spec. -/
theorem run_qns_swap_count_formula :
    (∀ gates : List SpecGate,
      run_qns_swap_count gates = (gates.map SpecGate.swapContrib).sum) ∧
    run_qns_swap_count [SpecGate.two "cx" 0 3] = 2 := by
  constructor
  · intro gates
    unfold run_qns_swap_count
    by_cases hr : gates.any SpecGate.needsRouting
    · rw [if_pos hr]
      suffices h : ∀ (l : List SpecGate) (init : Nat),
          List.foldl (fun swap_count g =>
            match g with
            | .one _ _ => swap_count
            | .two n a b =>
              if n = "cx" || n = "cz" then
                let distance := (a - b).natAbs
                if 1 < distance then swap_count + (distance - 1) else swap_count
              else swap_count) init l = init + (l.map SpecGate.swapContrib).sum by
        simpa using h gates 0
      intro l
      induction l with
      | nil => intro init; simp
      | cons g gs ih =>
        intro init
        cases g with
        | one n q =>
          simp only [List.foldl_cons, List.map_cons, List.sum_cons]
          rw [ih]
          simp [SpecGate.swapContrib]
        | two n a b =>
          simp only [List.foldl_cons, List.map_cons, List.sum_cons]
          rw [ih]
          unfold SpecGate.swapContrib
          by_cases hn : (n = "cx" || n = "cz") = true
          · simp only [hn, if_true, Bool.and_eq_true, decide_eq_true_eq]
            by_cases hd : 1 < (a - b).natAbs
            · simp only [if_pos hd, hn]
              simp [hd]
              omega
            · simp only [if_neg hd, hn]
              simp [hd]
          · simp only [hn, if_false, Bool.false_and]
            simp [hn]
    · rw [if_neg hr]
      have hz : ∀ g ∈ gates, SpecGate.swapContrib g = 0 := by
        intro g hg
        have hng : ¬ SpecGate.needsRouting g = true := fun hh =>
          hr (List.any_eq_true.mpr ⟨g, hg, hh⟩)
        cases g with
        | one n q => rfl
        | two n a b =>
          unfold SpecGate.needsRouting at hng
          unfold SpecGate.swapContrib
          exact if_neg hng
      symm
      rw [List.sum_eq_zero]
      intro x hx
      obtain ⟨g, hg, rfl⟩ := List.mem_map.mp hx
      exact hz g hg
  · decide

theorem lookup_mem {β : Type} {l : List (String × β)} {k : String} {v : β}
    (h : List.lookup k l = some v) : (k, v) ∈ l := by
  induction l with
  | nil => simp [List.lookup] at h
  | cons p rest ih =>
    cases p with
    | mk k2 v2 =>
      by_cases hk : k = k2
      · subst hk
        simp [List.lookup] at h
        subst h
        exact List.mem_cons_self _ _
      · simp only [List.lookup] at h
        rw [show (k == k2) = false from beq_false_of_ne hk] at h
        exact List.mem_cons_of_mem _ (ih h)

/-! ## Claim C10: `calculate_fidelity` bounds and the unguarded division -/

/-- C10: for counts with positive total, `calculate_fidelity` returns a value
in `[0, 1]`, equal to `0` when the expected state is absent; on the empty
counts dictionary it raises `ZeroDivisionError`, because the division by the
total shot count is unguarded. -/
theorem calculate_fidelity_props (counts : List (String × Nat)) (expected_state : String) :
    (0 < (counts.map Prod.snd).sum →
      ∃ r : ℚ, calculate_fidelity counts expected_state = .ok r ∧
        0 ≤ r ∧ r ≤ 1 ∧ (counts.lookup expected_state = none → r = 0)) ∧
    (counts = [] →
      calculate_fidelity counts expected_state = .error .zeroDivisionError) := by
  constructor
  · intro hpos
    have hne : ((counts.map Prod.snd).sum : Nat) ≠ 0 := Nat.pos_iff_ne_zero.mp hpos
    refine ⟨((counts.lookup expected_state).getD 0 : ℚ) / ((counts.map Prod.snd).sum : ℚ), ?_, ?_, ?_, ?_⟩
    · unfold calculate_fidelity
      rw [if_neg hne]
    · positivity
    · rw [div_le_one (by exact_mod_cast hpos)]
      have hle : (counts.lookup expected_state).getD 0 ≤ (counts.map Prod.snd).sum := by
        cases hlk : counts.lookup expected_state with
        | none => simp
        | some v =>
          simp only [Option.getD_some]
          have hmem : (expected_state, v) ∈ counts := lookup_mem hlk
          exact List.single_le_sum (fun x _ => Nat.zero_le x) v
            (List.mem_map.mpr ⟨(expected_state, v), hmem, rfl⟩)
      exact_mod_cast hle
    · intro hnone
      rw [hnone]
      simp
  · intro h
    subst h
    rfl

/-- Witness for C10 at the concrete counts `[("00", 3)]` and expected state
`"11"` (absent, so the fidelity is `0`). -/
theorem calculate_fidelity_props_witness :
    ∃ r : ℚ, calculate_fidelity [("00", 3)] "11" = .ok r ∧
      0 ≤ r ∧ r ≤ 1 ∧ (List.lookup "11" [("00", 3)] = none → r = 0) :=
  (calculate_fidelity_props [("00", 3)] "11").1 (by decide)

/-! ## Claim C6: the default crosstalk weight of `_parse_crosstalk` -/

theorem crosstalk_loop_mono : ∀ (cm : List (Nat × Nat)) (acc : List ((Nat × Nat) × ℚ))
    (kv : (Nat × Nat) × ℚ), kv ∈ acc → kv ∈ crosstalk_loop cm acc := by
  intro cm
  induction cm with
  | nil => intro acc kv h; exact h
  | cons e rest ih =>
    intro acc kv h
    unfold crosstalk_loop
    by_cases hc : (acc.map Prod.fst).contains (min e.1 e.2, max e.1 e.2)
    · rw [if_pos hc]; exact ih acc kv h
    · rw [if_neg hc]; exact ih _ kv (List.mem_append_left _ h)

theorem crosstalk_loop_values : ∀ (cm : List (Nat × Nat)) (acc : List ((Nat × Nat) × ℚ)),
    (∀ kv ∈ acc, kv.2 = 5 / 1000) →
    ∀ kv ∈ crosstalk_loop cm acc, kv.2 = 5 / 1000 := by
  intro cm
  induction cm with
  | nil => intro acc hacc kv h; exact hacc kv h
  | cons e rest ih =>
    intro acc hacc kv h
    unfold crosstalk_loop at h
    by_cases hc : (acc.map Prod.fst).contains (min e.1 e.2, max e.1 e.2)
    · rw [if_pos hc] at h; exact ih acc hacc kv h
    · rw [if_neg hc] at h
      refine ih _ ?_ kv h
      intro kv2 h2
      rcases List.mem_append.mp h2 with h2 | h2
      · exact hacc kv2 h2
      · simp at h2
        rw [h2]

theorem crosstalk_loop_nodup : ∀ (cm : List (Nat × Nat)) (acc : List ((Nat × Nat) × ℚ)),
    (acc.map Prod.fst).Nodup → ((crosstalk_loop cm acc).map Prod.fst).Nodup := by
  intro cm
  induction cm with
  | nil => intro acc h; exact h
  | cons e rest ih =>
    intro acc h
    unfold crosstalk_loop
    by_cases hc : (acc.map Prod.fst).contains (min e.1 e.2, max e.1 e.2)
    · rw [if_pos hc]; exact ih acc h
    · rw [if_neg hc]
      refine ih _ ?_
      rw [List.map_append]
      simp only [List.map_cons, List.map_nil]
      rw [List.nodup_append]
      refine ⟨h, List.nodup_singleton _, ?_⟩
      intro a ha hb
      simp only [List.mem_singleton] at hb
      subst hb
      have hmem : (min e.1 e.2, max e.1 e.2) ∉ acc.map Prod.fst := by simpa using hc
      exact hmem ha

theorem crosstalk_loop_covers : ∀ (cm : List (Nat × Nat)) (acc : List ((Nat × Nat) × ℚ))
    (e : Nat × Nat), e ∈ cm →
    (min e.1 e.2, max e.1 e.2) ∈ (crosstalk_loop cm acc).map Prod.fst := by
  intro cm
  induction cm with
  | nil => intro acc e h; simp at h
  | cons e2 rest ih =>
    intro acc e h
    rcases List.mem_cons.mp h with rfl | h
    · unfold crosstalk_loop
      by_cases hc : (acc.map Prod.fst).contains (min e.1 e.2, max e.1 e.2)
      · rw [if_pos hc]
        have hmem : (min e.1 e.2, max e.1 e.2) ∈ acc.map Prod.fst := by
          simpa using hc
        obtain ⟨kv, hkv, hfst⟩ := List.mem_map.mp hmem
        exact List.mem_map.mpr ⟨kv, crosstalk_loop_mono rest acc kv hkv, hfst⟩
      · rw [if_neg hc]
        refine List.mem_map.mpr ⟨((min e.1 e.2, max e.1 e.2), 5 / 1000), ?_, rfl⟩
        exact crosstalk_loop_mono rest _ _ (List.mem_append_right _ (by simp))
    · unfold crosstalk_loop
      by_cases hc : (acc.map Prod.fst).contains (min e2.1 e2.2, max e2.1 e2.2)
      · rw [if_pos hc]; exact ih acc e h
      · rw [if_neg hc]; exact ih _ e h

/-- C6: `CalibrationFetcher.fetch_properties` returns, through
`_parse_crosstalk`, a crosstalk dictionary that maps every coupling-map edge —
keyed as the sorted qubit pair, each pair appearing once — to the constant
`0.005`, and an empty dictionary when the configuration has no coupling map. -/
theorem parse_crosstalk_spec :
    (∀ (cm : List (Nat × Nat)), ∀ kv ∈ parse_crosstalk (some cm), kv.2 = 5 / 1000) ∧
    (∀ (cm : List (Nat × Nat)), ∀ e ∈ cm,
      ((min e.1 e.2, max e.1 e.2), (5 / 1000 : ℚ)) ∈ parse_crosstalk (some cm)) ∧
    (∀ cm : List (Nat × Nat), ((parse_crosstalk (some cm)).map Prod.fst).Nodup) ∧
    parse_crosstalk none = [] := by
  have hval : ∀ (cm : List (Nat × Nat)), ∀ kv ∈ parse_crosstalk (some cm), kv.2 = 5 / 1000 := by
    intro cm kv h
    simp only [parse_crosstalk] at h
    by_cases hnil : cm = []
    · rw [if_pos hnil] at h; simp at h
    · rw [if_neg hnil] at h
      exact crosstalk_loop_values cm [] (by simp) kv h
  refine ⟨hval, ?_, ?_, rfl⟩
  · intro cm e he
    have hnil : cm ≠ [] := by rintro rfl; simp at he
    have hkey : (min e.1 e.2, max e.1 e.2) ∈ (parse_crosstalk (some cm)).map Prod.fst := by
      simp only [parse_crosstalk]
      rw [if_neg hnil]
      exact crosstalk_loop_covers cm [] e he
    obtain ⟨kv, hkv, hfst⟩ := List.mem_map.mp hkey
    have hv := hval cm kv hkv
    have : kv = ((min e.1 e.2, max e.1 e.2), (5 / 1000 : ℚ)) := by
      cases kv
      simp_all
    rw [← this]
    exact hkv
  · intro cm
    simp only [parse_crosstalk]
    by_cases hnil : cm = []
    · rw [if_pos hnil]; simp
    · rw [if_neg hnil]
      exact crosstalk_loop_nodup cm [] (by simp)

/-- Witness for C6: the two directed edges `(1,0)` and `(0,1)` collapse to the
single sorted key `(0,1)` with value `0.005`. -/
theorem parse_crosstalk_spec_witness :
    ((0, 1), (5 / 1000 : ℚ)) ∈ parse_crosstalk (some [(1, 0), (0, 1)]) := by
  simpa using parse_crosstalk_spec.2.1 [(1, 0), (0, 1)] (1, 0) (by decide)

/-! ## Claim C4: when `_append_gate` raises the missing-parameters error -/

theorem lookupGateMap_has_params {name : String} {expq : Nat}
    (h : lookupGateMap name = some (expq, true)) :
    (name = "RX" ∨ name = "RY" ∨ name = "RZ") ∧ expq = 1 := by
  unfold lookupGateMap at h
  by_cases h1 : name = "H"
  · rw [if_pos h1] at h
    simp only [Option.some.injEq, Prod.mk.injEq] at h
    exact absurd h.2 (by decide)
  rw [if_neg h1] at h
  by_cases h2 : name = "X"
  · rw [if_pos h2] at h
    simp only [Option.some.injEq, Prod.mk.injEq] at h
    exact absurd h.2 (by decide)
  rw [if_neg h2] at h
  by_cases h3 : name = "Y"
  · rw [if_pos h3] at h
    simp only [Option.some.injEq, Prod.mk.injEq] at h
    exact absurd h.2 (by decide)
  rw [if_neg h3] at h
  by_cases h4 : name = "Z"
  · rw [if_pos h4] at h
    simp only [Option.some.injEq, Prod.mk.injEq] at h
    exact absurd h.2 (by decide)
  rw [if_neg h4] at h
  by_cases h5 : name = "S"
  · rw [if_pos h5] at h
    simp only [Option.some.injEq, Prod.mk.injEq] at h
    exact absurd h.2 (by decide)
  rw [if_neg h5] at h
  by_cases h6 : name = "T"
  · rw [if_pos h6] at h
    simp only [Option.some.injEq, Prod.mk.injEq] at h
    exact absurd h.2 (by decide)
  rw [if_neg h6] at h
  by_cases h7 : name = "RX"
  · rw [if_pos h7] at h
    simp only [Option.some.injEq, Prod.mk.injEq] at h
    exact ⟨Or.inl h7, h.1.symm⟩
  rw [if_neg h7] at h
  by_cases h8 : name = "RY"
  · rw [if_pos h8] at h
    simp only [Option.some.injEq, Prod.mk.injEq] at h
    exact ⟨Or.inr (Or.inl h8), h.1.symm⟩
  rw [if_neg h8] at h
  by_cases h9 : name = "RZ"
  · rw [if_pos h9] at h
    simp only [Option.some.injEq, Prod.mk.injEq] at h
    exact ⟨Or.inr (Or.inr h9), h.1.symm⟩
  rw [if_neg h9] at h
  by_cases h10 : name = "CNOT"
  · rw [if_pos h10] at h
    simp only [Option.some.injEq, Prod.mk.injEq] at h
    exact absurd h.2 (by decide)
  rw [if_neg h10] at h
  by_cases h11 : name = "CZ"
  · rw [if_pos h11] at h
    simp only [Option.some.injEq, Prod.mk.injEq] at h
    exact absurd h.2 (by decide)
  rw [if_neg h11] at h
  by_cases h12 : name = "SWAP"
  · rw [if_pos h12] at h
    simp only [Option.some.injEq, Prod.mk.injEq] at h
    exact absurd h.2 (by decide)
  rw [if_neg h12] at h
  exact absurd h (by simp)

/-- C4 (amended): `_append_gate` raises the missing-parameters error exactly
when the tag is `RX`, `RY` or `RZ`, the gate carries the expected single
operand qubit, and the params list is empty or absent; with a wrong operand
count the qubit-count error fires first. -/
theorem append_gate_missing_params_iff (qc : QuantumCircuitM) (g : GateDict) :
    append_gate qc g = .error (.valueError msgMissingParams) ↔
      ((g.name = "RX" ∨ g.name = "RY" ∨ g.name = "RZ") ∧
        g.qubits.length = 1 ∧ g.params = []) := by
  constructor
  · intro h
    rcases hmap : lookupGateMap g.name with _ | ⟨expq, hasp⟩
    · simp only [append_gate, hmap] at h
      simp [msgMissingParams] at h
    · simp only [append_gate, hmap] at h
      by_cases hlen : g.qubits.length ≠ expq
      · rw [if_pos hlen] at h
        simp [msgMissingParams, msgQubitCount] at h
      · rw [if_neg hlen] at h
        cases hasp with
        | false => simp at h
        | true =>
          simp only [if_true] at h
          by_cases hp : g.params = []
          · have := lookupGateMap_has_params hmap
            exact ⟨this.1, by omega, hp⟩
          · rw [if_neg hp] at h
            simp at h
  · rintro ⟨hname, hlen, hp⟩
    have hmap : lookupGateMap g.name = some (1, true) := by
      rcases hname with h | h | h <;> rw [h] <;> rfl
    simp only [append_gate, hmap]
    rw [if_neg (by omega)]
    simp only [if_true]
    rw [hp]
    simp

/-- C4 counterexample: the gate dictionary `{'name': 'RX', 'qubits': [0, 1],
'params': []}` has a rotation tag and an empty params list, yet `_append_gate`
raises the qubit-count error, not the missing-parameters error, because the
operand-count check precedes the parameter check. -/
theorem append_gate_rx_arity_counterexample :
    append_gate ⟨0, []⟩ ⟨"RX", [0, 1], []⟩ = .error (.valueError msgQubitCount) ∧
    append_gate ⟨0, []⟩ ⟨"RX", [0, 1], []⟩ ≠ .error (.valueError msgMissingParams) := by
  constructor
  · rfl
  · intro hcontra
    rw [show append_gate ⟨0, []⟩ ⟨"RX", [0, 1], []⟩
        = Except.error (PyErr.valueError msgQubitCount) from rfl] at hcontra
    injection hcontra with h2
    injection h2 with h3
    exact absurd h3 (by decide)

/-- Witness for C4 at the concrete gate `{'name': 'RX', 'qubits': [0],
'params': []}`: the amended equivalence applied right-to-left yields the
missing-parameters error. -/
theorem append_gate_missing_params_iff_witness :
    append_gate ⟨1, []⟩ ⟨"RX", [0], []⟩ = .error (.valueError msgMissingParams) :=
  (append_gate_missing_params_iff ⟨1, []⟩ ⟨"RX", [0], []⟩).mpr
    ⟨Or.inl rfl, rfl, rfl⟩

/-! ## Claim C3: operand-range validation of `qns_to_qiskit` -/

theorem foldl_max_le_init (qs : List Int) (q : Int) : q ≤ qs.foldl max q := by
  induction qs generalizing q with
  | nil => simp
  | cons a as ih => exact le_trans (le_max_left q a) (ih (max q a))

theorem mem_le_foldl_max (qs : List Int) (q : Int) : ∀ x ∈ qs, x ≤ qs.foldl max q := by
  induction qs generalizing q with
  | nil => simp
  | cons a as ih =>
    intro x hx
    rcases List.mem_cons.mp hx with rfl | hx
    · exact le_trans (le_max_right q x) (foldl_max_le_init as (max q x))
    · exact ih (max q a) x hx

theorem validate_gates_ok_bound : ∀ (gates : List GateDict) (n : Nat),
    validate_gates gates n = .ok () → ∀ g ∈ gates, ∀ q ∈ g.qubits, q < (n : Int) := by
  intro gates
  induction gates with
  | nil => intro n _ g hg; simp at hg
  | cons gate rest ih =>
    intro n h g hg
    unfold validate_gates at h
    rcases hmap : lookupGateMap gate.name with _ | v
    · rw [hmap] at h; simp at h
    · rw [hmap] at h
      cases hq : gate.qubits with
      | nil =>
        rw [hq] at h
        simp [pyMax, Bind.bind, Except.bind] at h
      | cons q0 qs =>
        rw [hq] at h
        simp only [pyMax, Bind.bind, Except.bind] at h
        by_cases hm : (n : Int) ≤ qs.foldl max q0
        · rw [if_pos hm] at h; simp at h
        · rw [if_neg hm] at h
          rcases List.mem_cons.mp hg with rfl | hg2
          · intro q hmem
            rw [hq] at hmem
            rcases List.mem_cons.mp hmem with rfl | hmem2
            · have := foldl_max_le_init qs q
              omega
            · have := mem_le_foldl_max qs q0 q hmem2
              omega
          · exact ih n h g hg2

/-- C3: converting a gate list fails whenever some gate has an operand index
`≥ num_qubits` (the `ValueError` is raised by `_validate_gates` before any
instruction is appended), so every successfully converted circuit satisfies
the invariant that all operand indices are `< num_qubits`. -/
theorem qns_to_qiskit_operand_range (gates : List GateDict) (n : Nat) :
    ((∃ g ∈ gates, ∃ q ∈ g.qubits, (n : Int) ≤ q) →
      ∃ e, qns_to_qiskit gates n = .error e) ∧
    (∀ qc, qns_to_qiskit gates n = .ok qc →
      ∀ g ∈ gates, ∀ q ∈ g.qubits, q < (n : Int)) := by
  have hok : ∀ qc, qns_to_qiskit gates n = .ok qc → validate_gates gates n = .ok () := by
    intro qc h
    unfold qns_to_qiskit at h
    cases hv : validate_gates gates n with
    | error e =>
      rw [hv] at h
      simp [Bind.bind, Except.bind] at h
    | ok u => cases u; rfl
  constructor
  · rintro ⟨g, hg, q, hq, hge⟩
    cases hres : qns_to_qiskit gates n with
    | error e => exact ⟨e, rfl⟩
    | ok qc =>
      have := validate_gates_ok_bound gates n (hok qc hres) g hg q hq
      omega
  · intro qc h g hg q hq
    exact validate_gates_ok_bound gates n (hok qc h) g hg q hq

/-- Witness for C3: the single gate `H` on qubit `5` in a 2-qubit circuit makes
the conversion fail, and the converted 1-gate circuit on qubit `0` satisfies
the operand invariant. -/
theorem qns_to_qiskit_operand_range_witness :
    (∃ e, qns_to_qiskit [⟨"H", [5], []⟩] 2 = .error e) ∧
    (∀ q ∈ ([0] : List Int), q < (2 : Int)) :=
  ⟨(qns_to_qiskit_operand_range [⟨"H", [5], []⟩] 2).1
      ⟨⟨"H", [5], []⟩, by decide, 5, by decide, by decide⟩,
    fun q hq =>
      (qns_to_qiskit_operand_range [⟨"H", [0], []⟩] 2).2 ⟨2, [("H", [0], [])]⟩
        (by rfl) ⟨"H", [0], []⟩ (by decide) q hq⟩

/-! ## Claim C7: the `aer-ideal` result of `run_backend` -/

/-- C7: a successful `run_backend('aer-ideal', ...)` call returns a result with
exactly the fields `backend`, `num_qubits`, `num_gates`, `shots`, `counts`,
`fidelity` (the `AerIdealResult` structure), where `num_gates` is the length of
the parsed gate list and `fidelity` is the count of the all-zeros bitstring
divided by the total count. -/
theorem run_backend_aer_ideal_fields (gates : List GateDict) (n shots : Nat)
    (aerRun : QuantumCircuitM → Nat → List (String × Nat)) (r : AerIdealResult)
    (h : run_backend_aer_ideal gates n shots aerRun = .ok r) :
    r.backend = "aer-ideal" ∧ r.num_qubits = n ∧ r.num_gates = gates.length ∧
    r.shots = shots ∧
    ∃ qc, qns_to_qiskit gates n = .ok qc ∧ r.counts = aerRun qc shots ∧
      r.fidelity = (((aerRun qc shots).lookup (allZeros n)).getD 0 : ℚ) /
        ((((aerRun qc shots).map Prod.snd).sum : Nat) : ℚ) := by
  unfold run_backend_aer_ideal at h
  cases hqc : qns_to_qiskit gates n with
  | error e =>
    rw [hqc] at h
    simp [Bind.bind, Except.bind] at h
  | ok qc =>
    rw [hqc] at h
    simp only [Bind.bind, Except.bind] at h
    unfold calculate_fidelity at h
    by_cases hz : ((aerRun qc shots).map Prod.snd).sum = 0
    · rw [if_pos hz] at h
      simp at h
    · rw [if_neg hz] at h
      simp only [Except.ok.injEq] at h
      subst h
      exact ⟨rfl, rfl, rfl, rfl, qc, rfl, rfl, rfl⟩

/-- Witness for C7: one `H` gate on one qubit, four shots, and an external run
returning `{"0": 2, "1": 2}`; the fidelity field is `2/4`. -/
theorem run_backend_aer_ideal_fields_witness :
    (⟨"aer-ideal", 1, 1, 4, [("0", 2), ("1", 2)], ((2 : Nat) : ℚ) / ((4 : Nat) : ℚ)⟩ : AerIdealResult).backend = "aer-ideal" ∧
    (⟨"aer-ideal", 1, 1, 4, [("0", 2), ("1", 2)], ((2 : Nat) : ℚ) / ((4 : Nat) : ℚ)⟩ : AerIdealResult).num_qubits = 1 ∧
    (⟨"aer-ideal", 1, 1, 4, [("0", 2), ("1", 2)], ((2 : Nat) : ℚ) / ((4 : Nat) : ℚ)⟩ : AerIdealResult).num_gates =
      [(⟨"H", [0], []⟩ : GateDict)].length ∧
    (⟨"aer-ideal", 1, 1, 4, [("0", 2), ("1", 2)], ((2 : Nat) : ℚ) / ((4 : Nat) : ℚ)⟩ : AerIdealResult).shots = 4 ∧
    ∃ qc, qns_to_qiskit [⟨"H", [0], []⟩] 1 = .ok qc ∧
      (⟨"aer-ideal", 1, 1, 4, [("0", 2), ("1", 2)], ((2 : Nat) : ℚ) / ((4 : Nat) : ℚ)⟩ : AerIdealResult).counts
        = (fun (_ : QuantumCircuitM) (_ : Nat) => [("0", 2), ("1", 2)]) qc 4 ∧
      (⟨"aer-ideal", 1, 1, 4, [("0", 2), ("1", 2)], ((2 : Nat) : ℚ) / ((4 : Nat) : ℚ)⟩ : AerIdealResult).fidelity
        = ((((fun (_ : QuantumCircuitM) (_ : Nat) => [("0", 2), ("1", 2)]) qc 4).lookup
            (allZeros 1)).getD 0 : ℚ) /
          (((((fun (_ : QuantumCircuitM) (_ : Nat) => [("0", 2), ("1", 2)]) qc 4).map
            Prod.snd).sum : Nat) : ℚ) :=
  run_backend_aer_ideal_fields [⟨"H", [0], []⟩] 1 4
    (fun _ _ => [("0", 2), ("1", 2)])
    ⟨"aer-ideal", 1, 1, 4, [("0", 2), ("1", 2)], ((2 : Nat) : ℚ) / ((4 : Nat) : ℚ)⟩
    (by rfl)

/-! ## Claim C1: `optimize()` never returns a worse-scored circuit -/

theorem score_le_foldl_betterOf (score : QnsCircuit → ℚ) (l : List QnsCircuit) :
    ∀ b, score b ≤ score (l.foldl (betterOf score) b) := by
  induction l with
  | nil => intro b; simp
  | cons x xs ih =>
    intro b
    refine le_trans ?_ (ih (betterOf score b x))
    unfold betterOf
    split_ifs with hlt
    · exact le_of_lt hlt
    · exact le_refl _

theorem score_le_searchBest (score : QnsCircuit → ℚ) (succ : QnsCircuit → List QnsCircuit)
    (beam : Nat) : ∀ (iters : Nat) (frontier : List QnsCircuit) (best : QnsCircuit),
    score best ≤ score (searchBest score succ beam iters frontier best) := by
  intro iters
  induction iters with
  | zero => intro f b; exact le_refl _
  | succ n ih =>
    intro f b
    exact le_trans (score_le_foldl_betterOf score (f.flatMap succ) b) (ih _ _)

/-- C1 (spec-modelled): for every circuit and optimizer configuration accepted
by `optimize()`, the returned `OptimizationResult` has
`optimized_score ≥ original_score` — equivalently `score_improvement ≥ 0` —
because the unmodified input circuit is the initial candidate set and the best
candidate ever seen is returned. -/
theorem optimize_never_worse (opt : QnsOptimizer) (circuit : QnsCircuit)
    (r : OptimizationResult) (h : optimize opt circuit = .ok r) :
    r.original_score = opt.score circuit ∧
    r.original_score ≤ r.optimized_score ∧
    r.score_improvement = r.optimized_score - r.original_score ∧
    0 ≤ r.score_improvement := by
  unfold optimize at h
  split_ifs at h with h1 h2
  simp only [Except.ok.injEq] at h
  subst h
  refine ⟨rfl, ?_, rfl, ?_⟩
  · exact score_le_searchBest opt.score opt.successors opt.beam_width
      opt.max_iterations [circuit] circuit
  · have := score_le_searchBest opt.score opt.successors opt.beam_width
      opt.max_iterations [circuit] circuit
    simp only
    linarith

/-- Witness for C1: a one-qubit empty circuit on a trivial optimizer whose
successor relation is empty; the returned scores are equal and the improvement
is zero. -/
theorem optimize_never_worse_witness :
    (⟨0, 0, (0 : ℚ) - 0, ⟨1, []⟩⟩ : OptimizationResult).original_score
        ≤ (⟨0, 0, (0 : ℚ) - 0, ⟨1, []⟩⟩ : OptimizationResult).optimized_score ∧
    0 ≤ (⟨0, 0, (0 : ℚ) - 0, ⟨1, []⟩⟩ : OptimizationResult).score_improvement :=
  ⟨(optimize_never_worse ⟨1, 2, 1, fun _ => 0, fun _ => []⟩ ⟨1, []⟩
      ⟨0, 0, (0 : ℚ) - 0, ⟨1, []⟩⟩ (by rfl)).2.1,
   (optimize_never_worse ⟨1, 2, 1, fun _ => 0, fun _ => []⟩ ⟨1, []⟩
      ⟨0, 0, (0 : ℚ) - 0, ⟨1, []⟩⟩ (by rfl)).2.2.2⟩

/-! ## Claim C8: T2 clamping in `build_noise_model` -/

theorem exceptMap_ok_length {α β : Type} {f : α → Except PyErr β} :
    ∀ {l : List α} {ys : List β}, exceptMap f l = .ok ys → ys.length = l.length := by
  intro l
  induction l with
  | nil =>
    intro ys h
    simp only [exceptMap, Except.ok.injEq] at h
    subst h
    rfl
  | cons a as ih =>
    intro ys h
    simp only [exceptMap, Bind.bind, Except.bind] at h
    cases hfa : f a with
    | error e => rw [hfa] at h; simp at h
    | ok b =>
      rw [hfa] at h
      cases hrest : exceptMap f as with
      | error e => rw [hrest] at h; simp at h
      | ok bs =>
        rw [hrest] at h
        simp only [Except.ok.injEq] at h
        subst h
        simp [ih hrest]

theorem exceptMap_ok_get {α β : Type} {f : α → Except PyErr β} :
    ∀ {l : List α} {ys : List β}, exceptMap f l = .ok ys →
    ∀ i y, ys.get? i = some y → ∃ x, l.get? i = some x ∧ f x = .ok y := by
  intro l
  induction l with
  | nil =>
    intro ys h i y hy
    simp only [exceptMap, Except.ok.injEq] at h
    subst h
    simp at hy
  | cons a as ih =>
    intro ys h i y hy
    simp only [exceptMap, Bind.bind, Except.bind] at h
    cases hfa : f a with
    | error e => rw [hfa] at h; simp at h
    | ok b =>
      rw [hfa] at h
      cases hrest : exceptMap f as with
      | error e => rw [hrest] at h; simp at h
      | ok bs =>
        rw [hrest] at h
        simp only [Except.ok.injEq] at h
        subst h
        cases i with
        | zero =>
          simp only [List.get?_cons_zero, Option.some.injEq] at hy
          exact ⟨a, rfl, hy ▸ hfa⟩
        | succ j =>
          simp only [List.get?_cons_succ] at hy
          exact ih hrest j y hy

theorem exceptMap_ok_mem {α β : Type} {f : α → Except PyErr β}
    {l : List α} {ys : List β} (h : exceptMap f l = .ok ys) :
    ∀ y ∈ ys, ∃ x ∈ l, f x = .ok y := by
  intro y hy
  obtain ⟨i, hi⟩ := List.get?_of_mem hy
  obtain ⟨x, hx, hfx⟩ := exceptMap_ok_get h i y hi
  exact ⟨x, List.get?_mem hx, hfx⟩

theorem exceptMap_ok_of_all {α β : Type} {f : α → Except PyErr β} :
    ∀ {l : List α}, (∀ x ∈ l, ∃ y, f x = .ok y) →
    ∃ ys, exceptMap f l = .ok ys := by
  intro l
  induction l with
  | nil => intro _; exact ⟨[], rfl⟩
  | cons a as ih =>
    intro hall
    obtain ⟨b, hb⟩ := hall a (List.mem_cons_self _ _)
    obtain ⟨bs, hbs⟩ := ih (fun x hx => hall x (List.mem_cons_of_mem _ hx))
    refine ⟨b :: bs, ?_⟩
    simp only [exceptMap, Bind.bind, Except.bind, hb, hbs]

theorem bind_ok_eq {α β : Type} (a : α) (f : α → Except PyErr β) :
    (Except.ok a >>= f) = f a := rfl

theorem idx_ok_iff {l : List ℚ} {i : Nat} {v : ℚ} :
    idx l i = .ok v ↔ l.get? i = some v := by
  unfold idx
  cases h : l.get? i with
  | none => simp
  | some w => simp

theorem idx_ok_of_lt {l : List ℚ} {i : Nat} (h : i < l.length) :
    ∃ v, idx l i = .ok v := by
  cases hg : l.get? i with
  | none => exact absurd (List.get?_eq_none.mp hg) (by omega)
  | some v => exact ⟨v, idx_ok_iff.mpr hg⟩

theorem t2v_entry {t1_list t2_list : List ℚ} {t2v : List ℚ}
    (hmap : exceptMap (fun i => do
        let t1 ← idx t1_list i
        let t2 ← idx t2_list i
        .ok (min t2 (2 * t1))) (List.range t1_list.length) = .ok t2v)
    {q : Nat} {b : ℚ} (hq : t2v.get? q = some b) :
    ∃ t1q t2q, t1_list.get? q = some t1q ∧ t2_list.get? q = some t2q ∧
      b = min t2q (2 * t1q) := by
  obtain ⟨x, hx, hfx⟩ := exceptMap_ok_get hmap q b hq
  by_cases hqlt : q < t1_list.length
  · rw [List.get?_range hqlt] at hx
    rw [show x = q from by injection hx with h; exact h.symm] at hfx
    simp only [Bind.bind, Except.bind] at hfx
    cases h1 : idx t1_list q with
    | error e => rw [h1] at hfx; simp at hfx
    | ok t1q =>
      rw [h1] at hfx
      cases h2 : idx t2_list q with
      | error e => rw [h2] at hfx; simp at hfx
      | ok t2q =>
        rw [h2] at hfx
        simp only [Except.ok.injEq] at hfx
        exact ⟨t1q, t2q, idx_ok_iff.mp h1, idx_ok_iff.mp h2, hfx.symm⟩
  · exfalso
    have hnone : (List.range t1_list.length).get? q = none :=
      List.get?_eq_none.mpr (by simpa using Nat.le_of_not_lt hqlt)
    rw [hnone] at hx
    exact Option.noConfusion hx

/-- C8: every noise model built by `NoiseModelBuilder.build_noise_model`
satisfies `T2 ≤ 2*T1`: for every calibration input that builds successfully,
each thermal relaxation component was constructed with the effective T2 value
`min(t2_list[i], 2*t1_list[i])` of its qubit; a supplied T2 exceeding `2*T1`
is silently clamped — the build succeeds whenever the calibration lists are
long enough, it is never rejected or flagged. -/
theorem build_noise_model_clamped (cal : CalibDict) :
    ((cal.t1.length ≤ cal.t2.length) →
     (cal.t1.length ≤ cal.gate_errors_1q.length) →
     (∀ p ∈ cal.gate_errors_2q, p.1.1 < cal.t1.length ∧ p.1.2 < cal.t1.length) →
      ∃ nm, build_noise_model cal = .ok nm) ∧
    (∀ nm, build_noise_model cal = .ok nm →
      ∀ e ∈ nm, ClampedEntry cal.t1 cal.t2 e) := by
  constructor
  · intro ht2 hg1 hg2
    obtain ⟨t2v, hm1⟩ := exceptMap_ok_of_all
      (f := fun i => do
        let t1 ← idx cal.t1 i
        let t2 ← idx cal.t2 i
        .ok (min t2 (2 * t1)))
      (l := List.range cal.t1.length)
      (by
        intro i hi
        have hilt : i < cal.t1.length := List.mem_range.mp hi
        obtain ⟨a, ha⟩ := idx_ok_of_lt hilt
        obtain ⟨b, hb⟩ := idx_ok_of_lt (l := cal.t2) (i := i) (by omega)
        exact ⟨min b (2 * a), by simp [Bind.bind, Except.bind, ha, hb]⟩)
    have ht2vlen : t2v.length = cal.t1.length := by
      have := exceptMap_ok_length hm1
      simpa using this
    obtain ⟨th1, hm2⟩ := exceptMap_ok_of_all
      (f := fun qubit => do
        let a ← idx cal.t1 qubit
        let b ← idx t2v qubit
        .ok (⟨.thermal_relaxation a b gate_time_1q, ["sx", "x"], [qubit]⟩ : ErrorAdd))
      (l := List.range cal.t1.length)
      (by
        intro i hi
        have hilt : i < cal.t1.length := List.mem_range.mp hi
        obtain ⟨a, ha⟩ := idx_ok_of_lt hilt
        obtain ⟨b, hb⟩ := idx_ok_of_lt (l := t2v) (i := i) (by omega)
        exact ⟨⟨.thermal_relaxation a b gate_time_1q, ["sx", "x"], [i]⟩,
          by simp [Bind.bind, Except.bind, ha, hb]⟩)
    obtain ⟨dp1, hm3⟩ := exceptMap_ok_of_all
      (f := fun qubit => do
        let e ← idx cal.gate_errors_1q qubit
        .ok (⟨.depolarizing e 1, ["sx", "x"], [qubit]⟩ : ErrorAdd))
      (l := List.range cal.t1.length)
      (by
        intro i hi
        have hilt : i < cal.t1.length := List.mem_range.mp hi
        obtain ⟨a, ha⟩ := idx_ok_of_lt (l := cal.gate_errors_1q) (i := i) (by omega)
        exact ⟨⟨.depolarizing a 1, ["sx", "x"], [i]⟩,
          by simp [Bind.bind, Except.bind, ha]⟩)
    obtain ⟨e2q, hm4⟩ := exceptMap_ok_of_all
      (f := fun p => do
        let t1q0 ← idx cal.t1 p.1.1
        let t2q0 ← idx t2v p.1.1
        let t1q1 ← idx cal.t1 p.1.2
        let t2q1 ← idx t2v p.1.2
        .ok ([⟨.thermal_tensor t1q0 t2q0 t1q1 t2q1 gate_time_2q, ["cx"], [p.1.1, p.1.2]⟩,
              ⟨.depolarizing p.2 2, ["cx"], [p.1.1, p.1.2]⟩] : List ErrorAdd))
      (l := cal.gate_errors_2q)
      (by
        intro p hp
        obtain ⟨hp1, hp2⟩ := hg2 p hp
        obtain ⟨a0, ha0⟩ := idx_ok_of_lt hp1
        obtain ⟨b0, hb0⟩ := idx_ok_of_lt (l := t2v) (i := p.1.1) (by omega)
        obtain ⟨a1, ha1⟩ := idx_ok_of_lt hp2
        obtain ⟨b1, hb1⟩ := idx_ok_of_lt (l := t2v) (i := p.1.2) (by omega)
        exact ⟨[⟨.thermal_tensor a0 b0 a1 b1 gate_time_2q, ["cx"], [p.1.1, p.1.2]⟩,
                ⟨.depolarizing p.2 2, ["cx"], [p.1.1, p.1.2]⟩],
          by simp [Bind.bind, Except.bind, ha0, hb0, ha1, hb1]⟩)
    refine ⟨th1 ++ dp1 ++ e2q.flatten, ?_⟩
    simp only [build_noise_model, hm1, bind_ok_eq, hm2, hm3, hm4]
  · intro nm h e he
    simp only [build_noise_model, Bind.bind, Except.bind] at h
    split at h
    · exact absurd h (by simp)
    rename_i t2v hm1
    split at h
    · exact absurd h (by simp)
    rename_i th1 hm2
    split at h
    · exact absurd h (by simp)
    rename_i dp1 hm3
    split at h
    · exact absurd h (by simp)
    rename_i e2q hm4
    simp only [Except.ok.injEq] at h
    subst h
    rcases List.mem_append.mp he with he2 | hflat
    · rcases List.mem_append.mp he2 with hth | hdp
      · obtain ⟨q, hq, hfq⟩ := exceptMap_ok_mem hm2 e hth
        cases h1 : idx cal.t1 q with
        | error e2 => rw [h1] at hfq; simp at hfq
        | ok a =>
          rw [h1] at hfq
          cases h2 : idx t2v q with
          | error e2 => rw [h2] at hfq; simp at hfq
          | ok b =>
            rw [h2] at hfq
            simp only [Except.ok.injEq] at hfq
            obtain ⟨t1q, t2q, ht1q, ht2q, hbmin⟩ :=
              t2v_entry hm1 (idx_ok_iff.mp h2)
            have haq : a = t1q := Option.some_injective _
              (by rw [← idx_ok_iff.mp h1]; exact ht1q)
            subst hfq
            refine ⟨?_, q, t2q, ?_, ht2q, ?_⟩
            · rw [hbmin, haq]
              exact min_le_right _ _
            · rw [haq]; exact ht1q
            · rw [hbmin, haq]
      · obtain ⟨q, hq, hfq⟩ := exceptMap_ok_mem hm3 e hdp
        cases h1 : idx cal.gate_errors_1q q with
        | error e2 => rw [h1] at hfq; simp at hfq
        | ok a =>
          rw [h1] at hfq
          simp only [Except.ok.injEq] at hfq
          subst hfq
          exact trivial
    · obtain ⟨l, hl, hel⟩ := List.mem_flatten.mp hflat
      obtain ⟨p, hp, hfp⟩ := exceptMap_ok_mem hm4 l hl
      cases h1 : idx cal.t1 p.1.1 with
      | error e2 => rw [h1] at hfp; simp at hfp
      | ok a0 =>
        rw [h1] at hfp
        cases h2 : idx t2v p.1.1 with
        | error e2 => rw [h2] at hfp; simp at hfp
        | ok b0 =>
          rw [h2] at hfp
          cases h3 : idx cal.t1 p.1.2 with
          | error e2 => rw [h3] at hfp; simp at hfp
          | ok a1 =>
            rw [h3] at hfp
            cases h4 : idx t2v p.1.2 with
            | error e2 => rw [h4] at hfp; simp at hfp
            | ok b1 =>
              rw [h4] at hfp
              simp only [Except.ok.injEq] at hfp
              subst hfp
              rcases List.mem_cons.mp hel with rfl | hel2
              · obtain ⟨t1q0, t2q0, ht10, ht20, hb0min⟩ :=
                  t2v_entry hm1 (idx_ok_iff.mp h2)
                obtain ⟨t1q1, t2q1, ht11, ht21, hb1min⟩ :=
                  t2v_entry hm1 (idx_ok_iff.mp h4)
                have ha0 : a0 = t1q0 := Option.some_injective _
                  (by rw [← idx_ok_iff.mp h1]; exact ht10)
                have ha1 : a1 = t1q1 := Option.some_injective _
                  (by rw [← idx_ok_iff.mp h3]; exact ht11)
                constructor
                · refine ⟨?_, p.1.1, t2q0, ?_, ht20, ?_⟩
                  · rw [hb0min, ha0]; exact min_le_right _ _
                  · rw [ha0]; exact ht10
                  · rw [hb0min, ha0]
                · refine ⟨?_, p.1.2, t2q1, ?_, ht21, ?_⟩
                  · rw [hb1min, ha1]; exact min_le_right _ _
                  · rw [ha1]; exact ht11
                  · rw [hb1min, ha1]
              · rcases List.mem_cons.mp hel2 with rfl | hel3
                · exact trivial
                · simp at hel3

/-- Witness for C8: a one-qubit calibration with `T1 = 50`, `T2 = 120`
(violating `T2 ≤ 2*T1`) builds successfully — the value is clamped, not
rejected. -/
theorem build_noise_model_clamped_witness :
    ∃ nm, build_noise_model ⟨[50], [120], [1/1000], [], []⟩ = .ok nm :=
  (build_noise_model_clamped ⟨[50], [120], [1/1000], [], []⟩).1
    (by decide) (by decide) (by decide)

/-! ## Claim C9: `CalibrationInfo` dictionary round trip -/

theorem not_comma_mem_pyStrInt (i : Int) : ',' ∉ pyStrInt i := by
  intro hmem
  unfold pyStrInt at hmem
  split_ifs at hmem
  · rcases List.mem_cons.mp hmem with hc | hc
    · exact absurd hc (by decide)
    · exact absurd (pyStrNat_isDigit hc) (by decide)
  · exact absurd (pyStrNat_isDigit hmem) (by decide)

theorem parseIntPair_pyStr (a b : Int) :
    parseIntPair (pyStrInt a ++ ',' :: pyStrInt b) = (a, b) := by
  unfold parseIntPair
  rw [pySplit_append _ (not_comma_mem_pyStrInt a),
    pySplit_of_not_mem (not_comma_mem_pyStrInt b)]
  simp [pyParseInt_pyStrInt]

/-- C9: dictionary serialization of calibration data round-trips —
`CalibrationInfo.from_dict (c.to_dict())` equals `c` field for field, for every
`CalibrationInfo` with int qubit keys, int-pair 2q keys and int-pair coupling
edges (the typed content of the structure). -/
theorem calibration_info_round_trip (c : CalibrationInfo) (now : ℚ) :
    CalibrationInfo.from_dict (CalibrationInfo.to_dict c) now = c := by
  cases c with
  | mk bn nq t1 t2 ge1 ge2 ro cmap ts =>
    simp [CalibrationInfo.from_dict, CalibrationInfo.to_dict, List.map_map,
      Function.comp_def, pyParseInt_pyStrInt, parseIntPair_pyStr]

/-! ## Claim C2: the serialize/parse round trip and `parse_qasm_file` -/

theorem pyParseInt_pyStrNat (n : Nat) : pyParseInt (pyStrNat n) = (n : Int) := by
  cases heq : pyStrNat n with
  | nil => exact absurd heq (pyStrNat_ne_nil _)
  | cons c cs =>
    have hdig := pyStrNat_isDigit (heq ▸ List.mem_cons_self c cs)
    have hcne : ¬ (c = '-') := fun hc => absurd (hc ▸ hdig) (by decide)
    simp only [pyParseInt]
    rw [if_neg hcne, ← heq, pyParseNat_pyStrNat]

theorem digChar_toNat {d : Nat} (h : d < 10) :
    48 ≤ (digChar d).toNat ∧ (digChar d).toNat ≤ 57 := by
  interval_cases d <;> exact (by decide)

theorem pyStrNat_toNat {n : Nat} {c : Char} (h : c ∈ pyStrNat n) :
    48 ≤ c.toNat ∧ c.toNat ≤ 57 := by
  unfold pyStrNat at h
  by_cases h0 : n = 0
  · simp [h0] at h
    subst h
    exact (by decide)
  · rw [if_neg h0] at h
    simp only [List.mem_map, List.mem_reverse] at h
    obtain ⟨d, hd, rfl⟩ := h
    exact digChar_toNat (natDigits_lt_ten hd)

theorem isPre_chars : ∀ {nd s : List Char}, isPre nd s = true → ∀ c ∈ nd, c ∈ s := by
  intro nd
  induction nd with
  | nil => intro s _ c hc; simp at hc
  | cons a as ih =>
    intro s h c hc
    cases s with
    | nil => simp [isPre] at h
    | cons b bs =>
      simp only [isPre, Bool.and_eq_true, decide_eq_true_eq] at h
      rcases List.mem_cons.mp hc with rfl | hc2
      · exact h.1 ▸ List.mem_cons_self _ _
      · exact List.mem_cons_of_mem _ (ih h.2 c hc2)

theorem hasSub_chars : ∀ {s nd : List Char}, hasSub nd s = true → ∀ c ∈ nd, c ∈ s := by
  intro s
  induction s with
  | nil => intro nd h c hc; exact isPre_chars h c hc
  | cons b bs ih =>
    intro nd h c hc
    simp only [hasSub, Bool.or_eq_true] at h
    rcases h with h | h
    · exact isPre_chars h c hc
    · exact List.mem_cons_of_mem _ (ih h c hc)

theorem hasSub_false_of_not_mem {nd s : List Char} {c : Char} (hc : c ∈ nd)
    (hs : c ∉ s) : hasSub nd s = false := by
  cases h : hasSub nd s
  · rfl
  · exact absurd (hasSub_chars h c hc) hs

theorem hasSub_of_isPre {nd s : List Char} (h : isPre nd s = true) :
    hasSub nd s = true := by
  cases s with
  | nil => exact h
  | cons b bs => simp [hasSub, h]

theorem lower_eq_of_lineChars {fixed line : List Char} (hl : LineChars fixed line)
    (hf : ∀ c ∈ fixed, c.toNat < 65 ∨ 90 < c.toNat) : pyLower line = line :=
  pyLower_eq_self (fun c hc => (hl c hc).elim (fun h => hf c h)
    (fun h => Or.inl (by omega)))

theorem not_mem_of_lineChars {fixed line : List Char} (hl : LineChars fixed line)
    {c : Char} (hcf : c ∉ fixed) (hcd : c.toNat < 48 ∨ 57 < c.toNat) : c ∉ line :=
  fun hm => (hl c hm).elim (fun h => hcf h) (fun h => by omega)

theorem lineChars_nil (fixed : List Char) : LineChars fixed [] := by
  intro c hc
  simp at hc

theorem lineChars_cons {fixed line : List Char} (c0 : Char) (h0 : c0 ∈ fixed)
    (h : LineChars fixed line) : LineChars fixed (c0 :: line) := by
  intro c hc
  rcases List.mem_cons.mp hc with rfl | hc
  · exact Or.inl h0
  · exact h c hc

theorem lineChars_append {fixed l1 l2 : List Char} (h1 : LineChars fixed l1)
    (h2 : LineChars fixed l2) : LineChars fixed (l1 ++ l2) := by
  intro c hc
  rcases List.mem_append.mp hc with hc | hc
  · exact h1 c hc
  · exact h2 c hc

theorem lineChars_digits (fixed : List Char) (q : Nat) :
    LineChars fixed (pyStrNat q) := fun c hc => Or.inr (pyStrNat_toNat hc)

theorem lineChars_1q (m : Char) (q : Nat) :
    LineChars [m, ' ', 'q', '[', ']', ';']
      (m :: ' ' :: 'q' :: '[' :: (pyStrNat q ++ [']', ';'])) := by
  refine lineChars_cons m (by simp) ?_
  refine lineChars_cons ' ' (by simp) ?_
  refine lineChars_cons 'q' (by simp) ?_
  refine lineChars_cons '[' (by simp) ?_
  refine lineChars_append (lineChars_digits _ q) ?_
  refine lineChars_cons ']' (by simp) ?_
  refine lineChars_cons ';' (by simp) ?_
  exact lineChars_nil _

theorem lineChars_2q (m1 m2 : Char) (a b : Nat) :
    LineChars [m1, m2, ' ', 'q', '[', ']', ',', ';']
      (m1 :: m2 :: ' ' :: 'q' :: '[' :: (pyStrNat a ++ [']', ','] ++
        (' ' :: 'q' :: '[' :: (pyStrNat b ++ [']', ';'])))) := by
  refine lineChars_cons m1 (by simp) ?_
  refine lineChars_cons m2 (by simp) ?_
  refine lineChars_cons ' ' (by simp) ?_
  refine lineChars_cons 'q' (by simp) ?_
  refine lineChars_cons '[' (by simp) ?_
  refine lineChars_append (lineChars_append (lineChars_digits _ a) ?_) ?_
  · refine lineChars_cons ']' (by simp) ?_
    refine lineChars_cons ',' (by simp) ?_
    exact lineChars_nil _
  · refine lineChars_cons ' ' (by simp) ?_
    refine lineChars_cons 'q' (by simp) ?_
    refine lineChars_cons '[' (by simp) ?_
    refine lineChars_append (lineChars_digits _ b) ?_
    refine lineChars_cons ']' (by simp) ?_
    refine lineChars_cons ';' (by simp) ?_
    exact lineChars_nil _

theorem lineChars_swap (a b : Nat) :
    LineChars ['s', 'w', 'a', 'p', ' ', 'q', '[', ']', ',', ';']
      ('s' :: 'w' :: 'a' :: 'p' :: ' ' :: 'q' :: '[' :: (pyStrNat a ++ [']', ','] ++
        (' ' :: 'q' :: '[' :: (pyStrNat b ++ [']', ';'])))) := by
  refine lineChars_cons 's' (by simp) ?_
  refine lineChars_cons 'w' (by simp) ?_
  refine lineChars_cons 'a' (by simp) ?_
  refine lineChars_cons 'p' (by simp) ?_
  refine lineChars_cons ' ' (by simp) ?_
  refine lineChars_cons 'q' (by simp) ?_
  refine lineChars_cons '[' (by simp) ?_
  refine lineChars_append (lineChars_append (lineChars_digits _ a) ?_) ?_
  · refine lineChars_cons ']' (by simp) ?_
    refine lineChars_cons ',' (by simp) ?_
    exact lineChars_nil _
  · refine lineChars_cons ' ' (by simp) ?_
    refine lineChars_cons 'q' (by simp) ?_
    refine lineChars_cons '[' (by simp) ?_
    refine lineChars_append (lineChars_digits _ b) ?_
    refine lineChars_cons ']' (by simp) ?_
    refine lineChars_cons ';' (by simp) ?_
    exact lineChars_nil _

theorem lineChars_measure (q : Nat) :
    LineChars ['m', 'e', 'a', 's', 'u', 'r', ' ', 'q', '[', ']', '-', '>', 'c', ';']
      ('m' :: 'e' :: 'a' :: 's' :: 'u' :: 'r' :: 'e' :: ' ' :: 'q' :: '[' ::
        (pyStrNat q ++ [']', ' ', '-', '>', ' ', 'c', '['] ++ (pyStrNat q ++ [']', ';']))) := by
  refine lineChars_cons 'm' (by simp) ?_
  refine lineChars_cons 'e' (by simp) ?_
  refine lineChars_cons 'a' (by simp) ?_
  refine lineChars_cons 's' (by simp) ?_
  refine lineChars_cons 'u' (by simp) ?_
  refine lineChars_cons 'r' (by simp) ?_
  refine lineChars_cons 'e' (by simp) ?_
  refine lineChars_cons ' ' (by simp) ?_
  refine lineChars_cons 'q' (by simp) ?_
  refine lineChars_cons '[' (by simp) ?_
  refine lineChars_append (lineChars_append (lineChars_digits _ q) ?_) ?_
  · refine lineChars_cons ']' (by simp) ?_
    refine lineChars_cons ' ' (by simp) ?_
    refine lineChars_cons '-' (by simp) ?_
    refine lineChars_cons '>' (by simp) ?_
    refine lineChars_cons ' ' (by simp) ?_
    refine lineChars_cons 'c' (by simp) ?_
    refine lineChars_cons '[' (by simp) ?_
    exact lineChars_nil _
  · refine lineChars_append (lineChars_digits _ q) ?_
    refine lineChars_cons ']' (by simp) ?_
    refine lineChars_cons ';' (by simp) ?_
    exact lineChars_nil _

theorem pyStrip_line_1q (m : Char) (hm : ¬ isWs m = true) (q : Nat) :
    pyStrip (m :: ' ' :: 'q' :: '[' :: (pyStrNat q ++ [']', ';'])) =
      m :: ' ' :: 'q' :: '[' :: (pyStrNat q ++ [']', ';']) := by
  have hshape : m :: ' ' :: 'q' :: '[' :: (pyStrNat q ++ [']', ';'])
      = m :: ((' ' :: 'q' :: '[' :: (pyStrNat q ++ [']'])) ++ [';']) := by simp
  rw [hshape, pyStrip_eq_self _ hm (by decide)]

theorem pyStrip_line_2q (m1 : Char) (hm : ¬ isWs m1 = true) (m2 : Char) (a b : Nat) :
    pyStrip (m1 :: m2 :: ' ' :: 'q' :: '[' :: (pyStrNat a ++ [']', ','] ++
        (' ' :: 'q' :: '[' :: (pyStrNat b ++ [']', ';'])))) =
      m1 :: m2 :: ' ' :: 'q' :: '[' :: (pyStrNat a ++ [']', ','] ++
        (' ' :: 'q' :: '[' :: (pyStrNat b ++ [']', ';']))) := by
  have hshape : m1 :: m2 :: ' ' :: 'q' :: '[' :: (pyStrNat a ++ [']', ','] ++
        (' ' :: 'q' :: '[' :: (pyStrNat b ++ [']', ';'])))
      = m1 :: ((m2 :: ' ' :: 'q' :: '[' :: (pyStrNat a ++ [']', ','] ++
        (' ' :: 'q' :: '[' :: (pyStrNat b ++ [']'])))) ++ [';']) := by simp
  rw [hshape, pyStrip_eq_self _ hm (by decide)]

theorem pyStrip_line_swap (a b : Nat) :
    pyStrip ('s' :: 'w' :: 'a' :: 'p' :: ' ' :: 'q' :: '[' :: (pyStrNat a ++ [']', ','] ++
        (' ' :: 'q' :: '[' :: (pyStrNat b ++ [']', ';'])))) =
      's' :: 'w' :: 'a' :: 'p' :: ' ' :: 'q' :: '[' :: (pyStrNat a ++ [']', ','] ++
        (' ' :: 'q' :: '[' :: (pyStrNat b ++ [']', ';']))) := by
  have hshape : 's' :: 'w' :: 'a' :: 'p' :: ' ' :: 'q' :: '[' :: (pyStrNat a ++ [']', ','] ++
        (' ' :: 'q' :: '[' :: (pyStrNat b ++ [']', ';'])))
      = 's' :: (('w' :: 'a' :: 'p' :: ' ' :: 'q' :: '[' :: (pyStrNat a ++ [']', ','] ++
        (' ' :: 'q' :: '[' :: (pyStrNat b ++ [']'])))) ++ [';']) := by simp
  rw [hshape, pyStrip_eq_self _ (by decide) (by decide)]

theorem pyStrip_line_measure (q : Nat) :
    pyStrip ('m' :: 'e' :: 'a' :: 's' :: 'u' :: 'r' :: 'e' :: ' ' :: 'q' :: '[' ::
        (pyStrNat q ++ [']', ' ', '-', '>', ' ', 'c', '['] ++ (pyStrNat q ++ [']', ';']))) =
      'm' :: 'e' :: 'a' :: 's' :: 'u' :: 'r' :: 'e' :: ' ' :: 'q' :: '[' ::
        (pyStrNat q ++ [']', ' ', '-', '>', ' ', 'c', '['] ++ (pyStrNat q ++ [']', ';'])) := by
  have hshape : 'm' :: 'e' :: 'a' :: 's' :: 'u' :: 'r' :: 'e' :: ' ' :: 'q' :: '[' ::
        (pyStrNat q ++ [']', ' ', '-', '>', ' ', 'c', '['] ++ (pyStrNat q ++ [']', ';']))
      = 'm' :: (('e' :: 'a' :: 's' :: 'u' :: 'r' :: 'e' :: ' ' :: 'q' :: '[' ::
        (pyStrNat q ++ [']', ' ', '-', '>', ' ', 'c', '['] ++ (pyStrNat q ++ [']']))) ++ [';']) := by
    simp
  rw [hshape, pyStrip_eq_self _ (by decide) (by decide)]

theorem pyStrip_line_qreg (n : Nat) :
    pyStrip ('q' :: 'r' :: 'e' :: 'g' :: ' ' :: 'q' :: '[' :: (pyStrNat n ++ [']', ';'])) =
      'q' :: 'r' :: 'e' :: 'g' :: ' ' :: 'q' :: '[' :: (pyStrNat n ++ [']', ';']) := by
  have hshape : 'q' :: 'r' :: 'e' :: 'g' :: ' ' :: 'q' :: '[' :: (pyStrNat n ++ [']', ';'])
      = 'q' :: (('r' :: 'e' :: 'g' :: ' ' :: 'q' :: '[' :: (pyStrNat n ++ [']'])) ++ [';']) := by
    simp
  rw [hshape, pyStrip_eq_self _ (by decide) (by decide)]

/-- `parse_qasm_file` skips a line that is non-empty, unchanged by `strip()`,
not a comment, not a `qreg` declaration, and matched by no gate token. -/
theorem parse_qasm_line_skip {st : Int × List PGate} {line : List Char}
    (hne : line ≠ []) (hstrip : pyStrip line = line)
    (hcom : isPre ['/', '/'] line = false)
    (hqreg : isPre ['q', 'r', 'e', 'g'] line = false)
    (htok : (gateTokens.any (fun g => hasSub g (pyLower line))) = false) :
    parse_qasm_line st line = .ok st := by
  simp only [parse_qasm_line, hstrip]
  rw [if_neg (by simp [hne, hcom]), if_neg (by simp [hqreg]), if_neg (by simp [htok])]

theorem not_hasSub {nd s : List Char} {c : Char} (hc : c ∈ nd) (hs : c ∉ s) :
    ¬ (hasSub nd s = true) := by
  rw [hasSub_false_of_not_mem hc hs]
  simp

theorem isPre_cons_false {a b : Char} (h : ¬ (a = b)) (as bs : List Char) :
    isPre (a :: as) (b :: bs) = false := by
  simp [isPre, h]

theorem parse_line_drop_s (st : Int × List PGate) (q : Nat) :
    parse_qasm_line st (gateLine (QnsGate.s q)) = .ok st := by
  have hl := lineChars_1q 's' q
  refine parse_qasm_line_skip (by simp [gateLine]) ?_ ?_ ?_ ?_
  · exact pyStrip_line_1q 's' (by decide) q
  · exact isPre_cons_false (by decide) _ _
  · exact isPre_cons_false (by decide) _ _
  · rw [show pyLower (gateLine (QnsGate.s q)) = gateLine (QnsGate.s q) from
      lower_eq_of_lineChars hl (by decide)]
    rw [List.any_eq_false]
    intro tok htok
    simp only [gateTokens, List.mem_cons, List.not_mem_nil, or_false] at htok
    rcases htok with rfl | rfl | rfl | rfl | rfl | rfl | rfl | rfl | rfl
    · exact not_hasSub (c := 'h') (by decide) (not_mem_of_lineChars hl (by decide) (by decide))
    · exact not_hasSub (c := 'x') (by decide) (not_mem_of_lineChars hl (by decide) (by decide))
    · exact not_hasSub (c := 'y') (by decide) (not_mem_of_lineChars hl (by decide) (by decide))
    · exact not_hasSub (c := 'z') (by decide) (not_mem_of_lineChars hl (by decide) (by decide))
    · exact not_hasSub (c := 'r') (by decide) (not_mem_of_lineChars hl (by decide) (by decide))
    · exact not_hasSub (c := 'r') (by decide) (not_mem_of_lineChars hl (by decide) (by decide))
    · exact not_hasSub (c := 'r') (by decide) (not_mem_of_lineChars hl (by decide) (by decide))
    · exact not_hasSub (c := 'c') (by decide) (not_mem_of_lineChars hl (by decide) (by decide))
    · exact not_hasSub (c := 'c') (by decide) (not_mem_of_lineChars hl (by decide) (by decide))

theorem parse_line_drop_t (st : Int × List PGate) (q : Nat) :
    parse_qasm_line st (gateLine (QnsGate.t q)) = .ok st := by
  have hl := lineChars_1q 't' q
  refine parse_qasm_line_skip (by simp [gateLine]) ?_ ?_ ?_ ?_
  · exact pyStrip_line_1q 't' (by decide) q
  · exact isPre_cons_false (by decide) _ _
  · exact isPre_cons_false (by decide) _ _
  · rw [show pyLower (gateLine (QnsGate.t q)) = gateLine (QnsGate.t q) from
      lower_eq_of_lineChars hl (by decide)]
    rw [List.any_eq_false]
    intro tok htok
    simp only [gateTokens, List.mem_cons, List.not_mem_nil, or_false] at htok
    rcases htok with rfl | rfl | rfl | rfl | rfl | rfl | rfl | rfl | rfl
    · exact not_hasSub (c := 'h') (by decide) (not_mem_of_lineChars hl (by decide) (by decide))
    · exact not_hasSub (c := 'x') (by decide) (not_mem_of_lineChars hl (by decide) (by decide))
    · exact not_hasSub (c := 'y') (by decide) (not_mem_of_lineChars hl (by decide) (by decide))
    · exact not_hasSub (c := 'z') (by decide) (not_mem_of_lineChars hl (by decide) (by decide))
    · exact not_hasSub (c := 'r') (by decide) (not_mem_of_lineChars hl (by decide) (by decide))
    · exact not_hasSub (c := 'r') (by decide) (not_mem_of_lineChars hl (by decide) (by decide))
    · exact not_hasSub (c := 'r') (by decide) (not_mem_of_lineChars hl (by decide) (by decide))
    · exact not_hasSub (c := 'c') (by decide) (not_mem_of_lineChars hl (by decide) (by decide))
    · exact not_hasSub (c := 'c') (by decide) (not_mem_of_lineChars hl (by decide) (by decide))

theorem parse_line_drop_swap (st : Int × List PGate) (a b : Nat) :
    parse_qasm_line st (gateLine (QnsGate.swapg a b)) = .ok st := by
  have hl := lineChars_swap a b
  refine parse_qasm_line_skip (by simp [gateLine]) ?_ ?_ ?_ ?_
  · exact pyStrip_line_swap a b
  · exact isPre_cons_false (by decide) _ _
  · exact isPre_cons_false (by decide) _ _
  · rw [show pyLower (gateLine (QnsGate.swapg a b)) = gateLine (QnsGate.swapg a b) from
      lower_eq_of_lineChars hl (by decide)]
    rw [List.any_eq_false]
    intro tok htok
    simp only [gateTokens, List.mem_cons, List.not_mem_nil, or_false] at htok
    rcases htok with rfl | rfl | rfl | rfl | rfl | rfl | rfl | rfl | rfl
    · exact not_hasSub (c := 'h') (by decide) (not_mem_of_lineChars hl (by decide) (by decide))
    · exact not_hasSub (c := 'x') (by decide) (not_mem_of_lineChars hl (by decide) (by decide))
    · exact not_hasSub (c := 'y') (by decide) (not_mem_of_lineChars hl (by decide) (by decide))
    · exact not_hasSub (c := 'z') (by decide) (not_mem_of_lineChars hl (by decide) (by decide))
    · exact not_hasSub (c := 'r') (by decide) (not_mem_of_lineChars hl (by decide) (by decide))
    · exact not_hasSub (c := 'r') (by decide) (not_mem_of_lineChars hl (by decide) (by decide))
    · exact not_hasSub (c := 'r') (by decide) (not_mem_of_lineChars hl (by decide) (by decide))
    · exact not_hasSub (c := 'c') (by decide) (not_mem_of_lineChars hl (by decide) (by decide))
    · exact not_hasSub (c := 'c') (by decide) (not_mem_of_lineChars hl (by decide) (by decide))

theorem parse_line_drop_measure (st : Int × List PGate) (q : Nat) :
    parse_qasm_line st (gateLine (QnsGate.measure q)) = .ok st := by
  have hl := lineChars_measure q
  refine parse_qasm_line_skip (by simp [gateLine]) ?_ ?_ ?_ ?_
  · exact pyStrip_line_measure q
  · exact isPre_cons_false (by decide) _ _
  · exact isPre_cons_false (by decide) _ _
  · rw [show pyLower (gateLine (QnsGate.measure q)) = gateLine (QnsGate.measure q) from
      lower_eq_of_lineChars hl (by decide)]
    rw [List.any_eq_false]
    intro tok htok
    simp only [gateTokens, List.mem_cons, List.not_mem_nil, or_false] at htok
    rcases htok with rfl | rfl | rfl | rfl | rfl | rfl | rfl | rfl | rfl
    · exact not_hasSub (c := 'h') (by decide) (not_mem_of_lineChars hl (by decide) (by decide))
    · exact not_hasSub (c := 'x') (by decide) (not_mem_of_lineChars hl (by decide) (by decide))
    · exact not_hasSub (c := 'y') (by decide) (not_mem_of_lineChars hl (by decide) (by decide))
    · exact not_hasSub (c := 'z') (by decide) (not_mem_of_lineChars hl (by decide) (by decide))
    · exact not_hasSub (c := 'x') (by decide) (not_mem_of_lineChars hl (by decide) (by decide))
    · exact not_hasSub (c := 'y') (by decide) (not_mem_of_lineChars hl (by decide) (by decide))
    · exact not_hasSub (c := 'z') (by decide) (not_mem_of_lineChars hl (by decide) (by decide))
    · exact not_hasSub (c := 'x') (by decide) (not_mem_of_lineChars hl (by decide) (by decide))
    · exact not_hasSub (c := 'n') (by decide) (not_mem_of_lineChars hl (by decide) (by decide))

theorem not_mem_pyStrNat {q : Nat} {c : Char} (h : c.toNat < 48 ∨ 57 < c.toNat) :
    c ∉ pyStrNat q :=
  fun hm => by have := pyStrNat_toNat hm; omega

theorem not_mem_append_chars {c : Char} {l1 l2 : List Char} (h1 : c ∉ l1)
    (h2 : c ∉ l2) : c ∉ l1 ++ l2 := by
  simp [h1, h2]

theorem pySplitWs_cons1 (m : Char) (rest : List Char) (hm : ¬ isWs m = true) :
    pySplitWs (m :: ' ' :: rest) = [m] :: splitWsAux rest [] := by
  have h := pySplitWs_head [m] rest
    (by intro c hc; simp at hc; subst hc; exact hm) (by simp)
  simpa using h

theorem pySplitWs_cons2 (m1 m2 : Char) (rest : List Char) (h1 : ¬ isWs m1 = true)
    (h2 : ¬ isWs m2 = true) :
    pySplitWs (m1 :: m2 :: ' ' :: rest) = [m1, m2] :: splitWsAux rest [] := by
  have h := pySplitWs_head [m1, m2] rest
    (by intro c hc; simp at hc; rcases hc with rfl | rfl; exacts [h1, h2]) (by simp)
  simpa using h

/-- The single-qubit gate lines `m q[i];` recognized by `parse_qasm_file`:
parsing appends the gate `⟨upper(m), [i], []⟩` and leaves `num_qubits`
unchanged. -/
theorem parse_line_1q_master (st : Int × List PGate) (m : Char) (q : Nat)
    (hm_ws : ¬ isWs m = true)
    (hm_slash : ¬ ('/' = m)) (hm_q : ¬ ('q' = m)) (hm_lb : m ≠ '[')
    (hm_lower : m.toNat < 65 ∨ 90 < m.toNat)
    (htok : ([m] : List Char) ∈ gateTokens)
    (hupper : ¬ (pyUpper [m] = ['C', 'X']))
    (hrot : (rotTokens.any (fun g => hasSub g (pyUpper [m]))) = false) :
    parse_qasm_line st (m :: ' ' :: 'q' :: '[' :: (pyStrNat q ++ [']', ';'])) =
      .ok (st.1, st.2 ++ [⟨pyUpper [m], [(q : Int)], []⟩]) := by
  have hl := lineChars_1q m q
  have hfix : ∀ c ∈ [m, ' ', 'q', '[', ']', ';'], c.toNat < 65 ∨ 90 < c.toNat := by
    intro c hc
    simp only [List.mem_cons, List.not_mem_nil, or_false] at hc
    rcases hc with rfl | rfl | rfl | rfl | rfl | rfl
    · exact hm_lower
    all_goals decide
  have hsplit1 : pySplit '[' (m :: ' ' :: 'q' :: '[' :: (pyStrNat q ++ [']', ';'])) =
      [[m, ' ', 'q'], pyStrNat q ++ [']', ';']] := by
    rw [show m :: ' ' :: 'q' :: '[' :: (pyStrNat q ++ [']', ';'])
        = [m, ' ', 'q'] ++ '[' :: (pyStrNat q ++ [']', ';']) from rfl]
    rw [pySplit_append _ (by
      intro hmem
      simp only [List.mem_cons, List.not_mem_nil, or_false] at hmem
      rcases hmem with h | h | h
      · exact hm_lb h.symm
      all_goals exact absurd h (by decide))]
    rw [pySplit_of_not_mem
      (not_mem_append_chars (not_mem_pyStrNat (by decide)) (by decide))]
  have hsplit2 : pySplit ']' (pyStrNat q ++ [']', ';']) = [pyStrNat q, [';']] := by
    rw [show pyStrNat q ++ [']', ';'] = pyStrNat q ++ ']' :: [';'] from rfl]
    rw [pySplit_append _ (not_mem_pyStrNat (by decide)),
      pySplit_of_not_mem (by decide)]
  simp only [parse_qasm_line, pyStrip_line_1q m hm_ws q]
  rw [if_neg (by simp [isPre_cons_false hm_slash])]
  rw [if_neg (by simp [isPre_cons_false hm_q])]
  rw [if_pos (by
    rw [lower_eq_of_lineChars hl hfix]
    exact List.any_eq_true.mpr ⟨[m], htok, by simp [hasSub, isPre]⟩)]
  rw [pySplitWs_cons1 m _ hm_ws]
  simp only [List.headI, if_neg hupper]
  rw [if_neg (by simp [hrot])]
  simp only [bind_ok_eq, hsplit1, List.tail_cons, List.map_cons, List.map_nil,
    hsplit2, List.headI, pyParseInt_pyStrNat]

/-- The two-qubit gate lines `mm q[i], q[j];` recognized by `parse_qasm_file`:
parsing appends the gate with the uppercased name (with `CX` renamed to
`CNOT`), the two operand qubits in order, and no params. -/
theorem parse_line_2q_master (st : Int × List PGate) (m1 m2 : Char) (a b : Nat)
    (nameF : List Char)
    (h1_ws : ¬ isWs m1 = true) (h2_ws : ¬ isWs m2 = true)
    (h1_slash : ¬ ('/' = m1)) (h1_q : ¬ ('q' = m1)) (h1_lb : m1 ≠ '[')
    (h2_lb : m2 ≠ '[')
    (h1_lower : m1.toNat < 65 ∨ 90 < m1.toNat)
    (h2_lower : m2.toNat < 65 ∨ 90 < m2.toNat)
    (htok : ∃ tok ∈ gateTokens,
      hasSub tok (m1 :: m2 :: ' ' :: 'q' :: '[' :: (pyStrNat a ++ [']', ','] ++
        (' ' :: 'q' :: '[' :: (pyStrNat b ++ [']', ';'])))) = true)
    (hname : (if pyUpper [m1, m2] = ['C', 'X'] then ['C', 'N', 'O', 'T']
      else pyUpper [m1, m2]) = nameF)
    (hrot : (rotTokens.any (fun g => hasSub g nameF)) = false) :
    parse_qasm_line st (m1 :: m2 :: ' ' :: 'q' :: '[' :: (pyStrNat a ++ [']', ','] ++
        (' ' :: 'q' :: '[' :: (pyStrNat b ++ [']', ';'])))) =
      .ok (st.1, st.2 ++ [⟨nameF, [(a : Int), (b : Int)], []⟩]) := by
  have hl := lineChars_2q m1 m2 a b
  have hfix : ∀ c ∈ [m1, m2, ' ', 'q', '[', ']', ',', ';'],
      c.toNat < 65 ∨ 90 < c.toNat := by
    intro c hc
    simp only [List.mem_cons, List.not_mem_nil, or_false] at hc
    rcases hc with rfl | rfl | rfl | rfl | rfl | rfl | rfl | rfl
    · exact h1_lower
    · exact h2_lower
    all_goals decide
  have hsplit1 : pySplit '[' (m1 :: m2 :: ' ' :: 'q' :: '[' ::
      (pyStrNat a ++ [']', ','] ++ (' ' :: 'q' :: '[' :: (pyStrNat b ++ [']', ';'])))) =
      [[m1, m2, ' ', 'q'], pyStrNat a ++ [']', ',', ' ', 'q'], pyStrNat b ++ [']', ';']] := by
    rw [show m1 :: m2 :: ' ' :: 'q' :: '[' :: (pyStrNat a ++ [']', ','] ++
        (' ' :: 'q' :: '[' :: (pyStrNat b ++ [']', ';'])))
        = [m1, m2, ' ', 'q'] ++ '[' :: ((pyStrNat a ++ [']', ',', ' ', 'q']) ++
          '[' :: (pyStrNat b ++ [']', ';'])) from by simp]
    rw [pySplit_append _ (by
      intro hmem
      simp only [List.mem_cons, List.not_mem_nil, or_false] at hmem
      rcases hmem with h | h | h | h
      · exact h1_lb h.symm
      · exact h2_lb h.symm
      all_goals exact absurd h (by decide))]
    rw [pySplit_append _
      (not_mem_append_chars (not_mem_pyStrNat (by decide)) (by decide))]
    rw [pySplit_of_not_mem
      (not_mem_append_chars (not_mem_pyStrNat (by decide)) (by decide))]
  have hsplit2a : pySplit ']' (pyStrNat a ++ [']', ',', ' ', 'q']) =
      [pyStrNat a, [',', ' ', 'q']] := by
    rw [show pyStrNat a ++ [']', ',', ' ', 'q'] = pyStrNat a ++ ']' :: [',', ' ', 'q']
      from rfl]
    rw [pySplit_append _ (not_mem_pyStrNat (by decide)),
      pySplit_of_not_mem (by decide)]
  have hsplit2b : pySplit ']' (pyStrNat b ++ [']', ';']) = [pyStrNat b, [';']] := by
    rw [show pyStrNat b ++ [']', ';'] = pyStrNat b ++ ']' :: [';'] from rfl]
    rw [pySplit_append _ (not_mem_pyStrNat (by decide)),
      pySplit_of_not_mem (by decide)]
  simp only [parse_qasm_line, pyStrip_line_2q m1 h1_ws m2 a b]
  rw [if_neg (by simp [isPre_cons_false h1_slash])]
  rw [if_neg (by simp [isPre_cons_false h1_q])]
  rw [if_pos (by
    rw [lower_eq_of_lineChars hl hfix]
    exact List.any_eq_true.mpr htok)]
  rw [pySplitWs_cons2 m1 m2 _ h1_ws h2_ws]
  simp only [List.headI, hname]
  rw [if_neg (by simp [hrot])]
  simp only [bind_ok_eq, hsplit1, List.tail_cons, List.map_cons, List.map_nil,
    hsplit2a, hsplit2b, List.headI, pyParseInt_pyStrNat]

theorem parse_line_qreg (st : Int × List PGate) (n : Nat) :
    parse_qasm_line st
      ('q' :: 'r' :: 'e' :: 'g' :: ' ' :: 'q' :: '[' :: (pyStrNat n ++ [']', ';'])) =
      .ok ((n : Int), st.2) := by
  have hsplit1 : pySplit '['
      ('q' :: 'r' :: 'e' :: 'g' :: ' ' :: 'q' :: '[' :: (pyStrNat n ++ [']', ';'])) =
      [['q', 'r', 'e', 'g', ' ', 'q'], pyStrNat n ++ [']', ';']] := by
    rw [show 'q' :: 'r' :: 'e' :: 'g' :: ' ' :: 'q' :: '[' :: (pyStrNat n ++ [']', ';'])
        = ['q', 'r', 'e', 'g', ' ', 'q'] ++ '[' :: (pyStrNat n ++ [']', ';']) from rfl]
    rw [pySplit_append _ (by decide)]
    rw [pySplit_of_not_mem
      (not_mem_append_chars (not_mem_pyStrNat (by decide)) (by decide))]
  have hsplit2 : pySplit ']' (pyStrNat n ++ [']', ';']) = [pyStrNat n, [';']] := by
    rw [show pyStrNat n ++ [']', ';'] = pyStrNat n ++ ']' :: [';'] from rfl]
    rw [pySplit_append _ (not_mem_pyStrNat (by decide)),
      pySplit_of_not_mem (by decide)]
  have hcom : isPre ['/', '/']
      ('q' :: 'r' :: 'e' :: 'g' :: ' ' :: 'q' :: '[' :: (pyStrNat n ++ [']', ';'])) = false :=
    isPre_cons_false (by decide) _ _
  simp only [parse_qasm_line, pyStrip_line_qreg n]
  rw [if_neg (by simp [hcom])]
  rw [if_pos (by simp [isPre])]
  simp only [hsplit1, hsplit2, List.headI, pyParseInt_pyStrNat]

/-- A gate of the recovered tag set `{H, X, Y, Z, CNOT, CZ}` parses back to its
ideal image. -/
theorem parse_line_gate_recovered (st : Int × List PGate) (g : QnsGate)
    (hg : g.recovered = true) :
    parse_qasm_line st (gateLine g) = .ok (st.1, st.2 ++ [pgateOf g]) := by
  cases g with
  | h q =>
    have h := parse_line_1q_master st 'h' q (by decide) (by decide) (by decide)
      (by decide) (by decide) (by decide) (by decide) (by decide)
    rw [show pyUpper ['h'] = ['H'] from by decide] at h
    exact h
  | x q =>
    have h := parse_line_1q_master st 'x' q (by decide) (by decide) (by decide)
      (by decide) (by decide) (by decide) (by decide) (by decide)
    rw [show pyUpper ['x'] = ['X'] from by decide] at h
    exact h
  | y q =>
    have h := parse_line_1q_master st 'y' q (by decide) (by decide) (by decide)
      (by decide) (by decide) (by decide) (by decide) (by decide)
    rw [show pyUpper ['y'] = ['Y'] from by decide] at h
    exact h
  | z q =>
    have h := parse_line_1q_master st 'z' q (by decide) (by decide) (by decide)
      (by decide) (by decide) (by decide) (by decide) (by decide)
    rw [show pyUpper ['z'] = ['Z'] from by decide] at h
    exact h
  | cnot a b =>
    exact parse_line_2q_master st 'c' 'x' a b ['C', 'N', 'O', 'T'] (by decide)
      (by decide) (by decide) (by decide) (by decide) (by decide) (by decide)
      (by decide) ⟨['c', 'x'], by decide, by simp [hasSub, isPre]⟩ (by decide)
      (by decide)
  | cz a b =>
    exact parse_line_2q_master st 'c' 'z' a b ['C', 'Z'] (by decide)
      (by decide) (by decide) (by decide) (by decide) (by decide) (by decide)
      (by decide) ⟨['z'], by decide, by simp [hasSub, isPre]⟩ (by decide)
      (by decide)
  | s q => simp [QnsGate.recovered] at hg
  | t q => simp [QnsGate.recovered] at hg
  | rx q a => simp [QnsGate.recovered] at hg
  | ry q a => simp [QnsGate.recovered] at hg
  | rz q a => simp [QnsGate.recovered] at hg
  | swapg a b => simp [QnsGate.recovered] at hg
  | measure q => simp [QnsGate.recovered] at hg

/-- A gate of the dropped tag set `{S, T, SWAP, MEASURE}` is skipped by the
parser: its line matches no recognized pattern. -/
theorem parse_line_gate_dropped (st : Int × List PGate) (g : QnsGate)
    (hg : g.dropped = true) :
    parse_qasm_line st (gateLine g) = .ok st := by
  cases g with
  | s q => exact parse_line_drop_s st q
  | t q => exact parse_line_drop_t st q
  | swapg a b => exact parse_line_drop_swap st a b
  | measure q => exact parse_line_drop_measure st q
  | h q => simp [QnsGate.dropped] at hg
  | x q => simp [QnsGate.dropped] at hg
  | y q => simp [QnsGate.dropped] at hg
  | z q => simp [QnsGate.dropped] at hg
  | rx q a => simp [QnsGate.dropped] at hg
  | ry q a => simp [QnsGate.dropped] at hg
  | rz q a => simp [QnsGate.dropped] at hg
  | cnot a b => simp [QnsGate.dropped] at hg
  | cz a b => simp [QnsGate.dropped] at hg

theorem dropped_not_recovered {g : QnsGate} (h : g.dropped = true) :
    g.recovered = false := by
  cases g <;> simp_all [QnsGate.dropped, QnsGate.recovered]

theorem parse_fold : ∀ (gates : List QnsGate),
    (∀ g ∈ gates, g.recovered = true ∨ g.dropped = true) →
    ∀ (nst : Int) (acc : List PGate),
    List.foldlM parse_qasm_line (nst, acc) (gates.map gateLine) =
      .ok (nst, acc ++ (gates.filter (fun g => g.recovered)).map pgateOf) := by
  intro gates
  induction gates with
  | nil =>
    intro _ nst acc
    show pure (nst, acc) = Except.ok (nst, acc ++ [])
    simp
    rfl
  | cons g gs ih =>
    intro hall nst acc
    rw [List.map_cons, List.foldlM_cons]
    rcases hall g (List.mem_cons_self _ _) with hrec | hdrop
    · rw [parse_line_gate_recovered (nst, acc) g hrec, bind_ok_eq,
        ih (fun x hx => hall x (List.mem_cons_of_mem _ hx)) nst (acc ++ [pgateOf g])]
      simp [List.filter_cons, hrec]
    · rw [parse_line_gate_dropped (nst, acc) g hdrop, bind_ok_eq,
        ih (fun x hx => hall x (List.mem_cons_of_mem _ hx)) nst acc]
      simp [List.filter_cons, dropped_not_recovered hdrop]

/-- C2 (amended): for circuits whose gates use only tags in
`{H, X, Y, Z, CNOT, CZ, S, T, SWAP, MEASURE}` (no rotations), parsing the
serialized text recovers `num_qubits` and exactly the gates with tags in
`{H, X, Y, Z, CNOT, CZ}`, in order, with their operand qubits; gates with tags
`S`, `T`, `SWAP`, `MEASURE` are silently dropped by `parse_qasm_file`, so the
round trip is lossless precisely on the recovered tag set and not on the full
tag set of the claim. -/
theorem circuit_text_round_trip (c : QnsCircuit)
    (hc : ∀ g ∈ c.gates, g.recovered = true ∨ g.dropped = true) :
    parse_qasm_file (circuit_to_text c) =
      .ok ((c.num_qubits : Int),
        (c.gates.filter (fun g => g.recovered)).map pgateOf) := by
  unfold parse_qasm_file circuit_to_text
  rw [List.foldlM_cons, parse_line_qreg (0, []) c.num_qubits, bind_ok_eq,
    parse_fold c.gates hc (c.num_qubits : Int) []]
  simp

/-- Witness for C2 (amended) on the circuit `[H(0), CNOT(0,1)]` on two qubits:
the round trip recovers both gates. -/
theorem circuit_text_round_trip_witness :
    parse_qasm_file (circuit_to_text ⟨2, [QnsGate.h 0, QnsGate.cnot 0 1]⟩) =
      .ok ((2 : Int),
        (([QnsGate.h 0, QnsGate.cnot 0 1].filter (fun g => g.recovered)).map pgateOf)) :=
  circuit_text_round_trip ⟨2, [QnsGate.h 0, QnsGate.cnot 0 1]⟩ (by decide)

/-- C2 counterexample: the single-gate circuit `[S(0)]` on one qubit
serializes to `qreg q[1]; s q[0];`, and `parse_qasm_file` returns no gates at
all — the `s` line matches no token of the gate-detection test — so the round
trip loses the `S` gate (the lossless image would be the one-element list
`[pgateOf (S 0)]`). -/
theorem parse_drops_s_gate :
    parse_qasm_file (circuit_to_text ⟨1, [QnsGate.s 0]⟩) =
      .ok ((1 : Int), ([] : List PGate)) ∧
    ([] : List PGate) ≠ [pgateOf (QnsGate.s 0)] := by
  constructor
  · rfl
  · decide

end QNS
